import Mathlib

/-!
Verification of the FBGEMM depthwise int8 kernel generator
(`src/GenerateI8Depthwise.cc`) against its natural-language specification.

The development shallowly embeds the generator:
* the emitted AVX2 instruction stream is an inductive `Instr` list produced by
  `emit`, a pure function of the kernel signature transcribed line by line from
  `GenI8Depthwise::getOrCreate` and `genMaddEpi16xNPacked`;
* the semantics of the generated kernel is a small-step interpreter
  `execInstr` over byte-level register/memory state, with the single runtime
  loop (the channel-group loop `ic_loop_begin`/`ic_loop_end`) resolved by
  `loopSim`;
* machine arithmetic is `Nat`/`Int` with explicit two's-complement encodings
  (`% 256`, `% 65536`, `% 2 ^ 32`) and explicit 16-bit saturation (`satI16`)
  for `vpmaddubsw`/`vpaddsw`.
-/

set_option maxHeartbeats 1000000

namespace FbgemmDW

/-- Two's-complement reading of a byte as a signed 8-bit integer. -/
def toI8 (b : Nat) : Int :=
  if b % 256 < 128 then (b % 256 : Int) else (b % 256 : Int) - 256

/-- Two's-complement reading of a 16-bit word as a signed integer. -/
def toI16 (w : Nat) : Int :=
  if w % 65536 < 32768 then (w % 65536 : Int) else (w % 65536 : Int) - 65536

/-- Two's-complement reading of a 32-bit dword as a signed integer. -/
def toI32 (d : Nat) : Int :=
  if d % 4294967296 < 2147483648 then (d % 4294967296 : Int)
  else (d % 4294967296 : Int) - 4294967296

/-- Encode a signed integer as its 16-bit two's-complement bit pattern. -/
def ofI16 (x : Int) : Nat := (x % 65536).toNat

/-- Encode a signed integer as its 32-bit two's-complement bit pattern. -/
def ofI32 (x : Int) : Nat := (x % 4294967296).toNat

/-- Signed 16-bit saturation, as performed by `vpmaddubsw` and `vpaddsw`. -/
def satI16 (x : Int) : Int := max (-32768) (min 32767 x)

/-- A 256-bit vector register modelled by its byte contents; indices 0..31
are the meaningful ones. -/
def Vec := Nat → Nat

/-- 16-bit word `j` (0..15) of a vector, assembled little-endian. -/
def wordOf (v : Vec) (j : Nat) : Nat := v (2 * j) + 256 * v (2 * j + 1)

/-- 32-bit dword `j` (0..7) of a vector, assembled little-endian. -/
def dwordOf (v : Vec) (j : Nat) : Nat :=
  v (4 * j) + 256 * v (4 * j + 1) + 65536 * v (4 * j + 2) +
    16777216 * v (4 * j + 3)

/-- Build a vector from its sixteen 16-bit words. -/
def mkWords (f : Nat → Nat) : Vec := fun b => f (b / 2) / 256 ^ (b % 2) % 256

/-- Build a vector from its eight 32-bit dwords. -/
def mkDwords (f : Nat → Nat) : Vec := fun b => f (b / 4) / 256 ^ (b % 4) % 256

/-- `vpunpcklbw`: per 128-bit lane, interleave the low 8 bytes of the two
sources. -/
def vpunpcklbwV (x y : Vec) : Vec := fun b =>
  if b % 2 = 0 then x (16 * (b / 16) + b % 16 / 2)
  else y (16 * (b / 16) + b % 16 / 2)

/-- `vpunpckhbw`: per 128-bit lane, interleave the high 8 bytes of the two
sources. -/
def vpunpckhbwV (x y : Vec) : Vec := fun b =>
  if b % 2 = 0 then x (16 * (b / 16) + 8 + b % 16 / 2)
  else y (16 * (b / 16) + 8 + b % 16 / 2)

/-- `vpunpcklwd`: per 128-bit lane, interleave the low 4 words of the two
sources. -/
def vpunpcklwdV (x y : Vec) : Vec := mkWords fun j =>
  if j % 2 = 0 then wordOf x (8 * (j / 8) + j % 8 / 2)
  else wordOf y (8 * (j / 8) + j % 8 / 2)

/-- `vpunpckhwd`: per 128-bit lane, interleave the high 4 words of the two
sources. -/
def vpunpckhwdV (x y : Vec) : Vec := mkWords fun j =>
  if j % 2 = 0 then wordOf x (8 * (j / 8) + 4 + j % 8 / 2)
  else wordOf y (8 * (j / 8) + 4 + j % 8 / 2)

/-- `vpmaddubsw`: unsigned bytes of `x` times signed bytes of `y`, adjacent
pairs summed with signed 16-bit saturation. -/
def vpmaddubswV (x y : Vec) : Vec := mkWords fun j =>
  ofI16 (satI16 ((x (2 * j) % 256 : Int) * toI8 (y (2 * j)) +
    (x (2 * j + 1) % 256 : Int) * toI8 (y (2 * j + 1))))

/-- `vpaddsw`: word-wise signed saturating addition. -/
def vpaddswV (x y : Vec) : Vec := mkWords fun j =>
  ofI16 (satI16 (toI16 (wordOf x j) + toI16 (wordOf y j)))

/-- `vpmaddwd`: signed words multiplied pairwise, adjacent pairs summed into
32-bit dwords (wrapping). -/
def vpmaddwdV (x y : Vec) : Vec := mkDwords fun j =>
  ofI32 (toI16 (wordOf x (2 * j)) * toI16 (wordOf y (2 * j)) +
    toI16 (wordOf x (2 * j + 1)) * toI16 (wordOf y (2 * j + 1)))

/-- `vpaddd`: dword-wise wrapping addition. -/
def vpadddV (x y : Vec) : Vec := mkDwords fun j =>
  (dwordOf x j + dwordOf y j) % 4294967296

/-- `vpmovsxwd` from the low xmm half: sign-extend words 0..7 to dwords. -/
def vpmovsxwdV (x : Vec) : Vec := mkDwords fun j => ofI32 (toI16 (wordOf x j))

/-- `vpmulld`: dword-wise low 32 bits of the product. -/
def vpmulldV (x y : Vec) : Vec := mkDwords fun j =>
  dwordOf x j * dwordOf y j % 4294967296

/-- `vextracti128 dst.half, src, 1` with `dst = src`: the high 128-bit lane
moves to the low half and the upper half of the register is zeroed. -/
def vextractHiV (x : Vec) : Vec := fun b => if b < 16 then x (16 + b) else 0

/-- `vperm2f128` with immediate `0x20` (low lanes of both sources) or `0x31`
(high lanes of both sources), the only immediates the generator emits. -/
def vperm2f128V (x y : Vec) (imm : Nat) : Vec := fun b =>
  if b < 16 then (if imm = 0x20 then x b else x (b + 16))
  else (if imm = 0x20 then y (b - 16) else y b)

/-- `vpbroadcastb` from the low byte of the source register. -/
def broadcastBV (x : Vec) : Vec := fun _ => x 0 % 256

/-- `movq xmm, gp`: low 8 bytes hold the general register little-endian
(64-bit two's complement), upper bytes zero. -/
def movqGpV (g : Int) : Vec := fun b =>
  if b < 8 then (g % 18446744073709551616).toNat / 256 ^ b % 256 else 0

/-- `vpbroadcastd` of a 32-bit value to all dwords. -/
def broadcastDV (d : Nat) : Vec := mkDwords fun _ => d % 4294967296

/-- Byte-wise xor (the generator only emits `vxorps z, z, z`, i.e. zeroing). -/
def vxorV (x y : Vec) : Vec := fun b => Nat.xor (x b % 256) (y b % 256)

/-- Modelled from the spec: `gen8BitVectorOne` (CodeGenHelpers.h, not part of
this snapshot) materializes the all-ones-bytes vector used to sum activations
(spec 4.4: summing against an all-ones weight vector). -/
def onesBV : Vec := fun _ => 1

/-- Modelled from the spec: `gen16BitVectorOne` (CodeGenHelpers.h, not part of
this snapshot) materializes the all-ones-words vector used by `vpmaddwd`. -/
def ones16V : Vec := mkWords fun _ => 1

/-- An unmasked 32-byte load from byte-addressed memory. -/
def loadMem (mem : Int → Nat) (addr : Int) : Vec := fun b =>
  mem (addr + b) % 256

/-- `vmaskmovps`: dword lanes whose mask dword has the sign bit set are
loaded, the others are zeroed. -/
def maskLoadMem (mask : Vec) (mem : Int → Nat) (addr : Int) : Vec := fun b =>
  if 2147483648 ≤ dwordOf mask (b / 4) then mem (addr + b) % 256 else 0

/-- A 32-byte store to byte-addressed memory. -/
def storeMem (mem : Int → Nat) (addr : Int) (v : Vec) : Int → Nat := fun a =>
  if addr ≤ a ∧ a < addr + 32 then v (a - addr).toNat % 256 else mem a

/-- Read a 32-bit little-endian value from memory. -/
def dwordMem (mem : Int → Nat) (addr : Int) : Nat :=
  mem addr % 256 + 256 * (mem (addr + 1) % 256) +
    65536 * (mem (addr + 2) % 256) + 16777216 * (mem (addr + 3) % 256)

/-- The kernel specialization signature: the eleven `getOrCreate` parameters
(`GenerateI8Depthwise.cc` lines 171-182). -/
structure Sig where
  D : Nat
  S : Nat
  compute_a_sum : Bool
  per_channel_quantization : Bool
  remainder : Nat
  prev_skip : Nat
  next_skip : Nat
  top_skip : Nat
  bottom_skip : Nat
  left_skip : Nat
  right_skip : Nat
deriving DecidableEq

/-- Number of filter taps: `K = 1; for i < D: K *= S`, i.e. `S ^ D`
(lines 293-296). -/
def Sig.K (sg : Sig) : Nat := sg.S ^ sg.D

/-- The signature space documented by the spec (3: rank `D ∈ {2,3}`, a filter
with at least one tap, channel remainder `R ∈ [1,32]`). -/
def Sig.WF (sg : Sig) : Prop :=
  (sg.D = 2 ∨ sg.D = 3) ∧ 1 ≤ sg.S ∧ 1 ≤ sg.remainder ∧ sg.remainder ≤ 32

instance (sg : Sig) : Decidable sg.WF := by unfold Sig.WF; infer_instance

/-- A-tile registers: `vreg_id` starts at 2 (two temporaries reserved),
`a[i] = Ymm(2 + i)` (lines 265-268). -/
def aReg (i : Nat) : Nat := 2 + i

/-- C-accumulator registers `c[i] = Ymm(6 + i)` (lines 269-271). -/
def cReg (i : Nat) : Nat := 6 + i

/-- Row-sum registers `a_sum[i] = Ymm(10 + i)`, assigned when
`compute_a_sum` (lines 272-277). -/
def sReg (i : Nat) : Nat := 10 + i

/-- Next free vector register after the A/C tiles and the optional row-sum
pair. -/
def Sig.vregAfterSum (sg : Sig) : Nat := if sg.compute_a_sum then 12 else 10

/-- The remainder-mask register `mask_vreg` (line 278). -/
def Sig.maskReg (sg : Sig) : Nat := sg.vregAfterSum

/-- Next free vector register after the optional remainder mask
(lines 280-281: the id is consumed only when `remainder != 32`). -/
def Sig.vregAfterMask (sg : Sig) : Nat :=
  if sg.remainder ≠ 32 then sg.maskReg + 1 else sg.maskReg

/-- The all-ones-bytes register `one_epi8` (line 287). -/
def Sig.one8Reg (sg : Sig) : Nat := sg.vregAfterMask

/-- Next free vector register after `one_epi8` (consumed when
`compute_a_sum`, lines 288-291). -/
def Sig.vregAfterOne8 (sg : Sig) : Nat :=
  if sg.compute_a_sum then sg.one8Reg + 1 else sg.one8Reg

/-- The all-ones-words register `one_epi16` (line 297). -/
def Sig.one16Reg (sg : Sig) : Nat := sg.vregAfterOne8

/-- Next free vector register after `one_epi16` (consumed when `K > 2`,
lines 298-301). -/
def Sig.vregAfterOne16 (sg : Sig) : Nat :=
  if 2 < sg.K then sg.one16Reg + 1 else sg.one16Reg

/-- `has_pad`: some skip count is nonzero (lines 303-304). -/
def Sig.has_pad (sg : Sig) : Bool :=
  (sg.prev_skip != 0) || (sg.next_skip != 0) || (sg.top_skip != 0) ||
    (sg.bottom_skip != 0) || (sg.left_skip != 0) || (sg.right_skip != 0)

/-- `need_zero = K % 4 == 3 || K % 4 == 1` (line 305). -/
def Sig.need_zero (sg : Sig) : Bool := sg.K % 4 == 3 || sg.K % 4 == 1

/-- `recompute_zero = vreg_id == 15 && need_zero` (line 307): out of
registers, `zero` and `a_zero_point_vreg` must share. -/
def Sig.recompute_zero (sg : Sig) : Bool :=
  (sg.vregAfterOne16 == 15) && sg.need_zero

/-- The activation-zero-point broadcast register `a_zero_point_vreg`
(line 309). -/
def Sig.zpReg (sg : Sig) : Nat := sg.vregAfterOne16

/-- The zero-constant register (lines 314-317: the id advances only while
below 15, so at the pressure limit `zero` aliases `a_zero_point_vreg`). -/
def Sig.zeroReg (sg : Sig) : Nat :=
  if sg.vregAfterOne16 < 15 then sg.vregAfterOne16 + 1 else sg.vregAfterOne16

/-- Static padding test for the tap at filter offset `(f_t, f_h, f_w)`
(lines 359-368).  `Nat` subtraction agrees with the C++ `int` comparison
`f >= S - skip` here: when `skip > S` the C++ right side is negative and the
comparison is true, and the truncated `Nat` difference `0` also makes it
true. -/
def Sig.padAt (sg : Sig) (f_t f_h f_w : Nat) : Bool :=
  ((2 < sg.D : Bool) &&
    (decide (f_t < sg.prev_skip) || decide (sg.S - sg.next_skip ≤ f_t))) ||
  decide (f_h < sg.top_skip) || decide (sg.S - sg.bottom_skip ≤ f_h) ||
  decide (f_w < sg.left_skip) || decide (sg.S - sg.right_skip ≤ f_w)

/-- The general-purpose registers the generator assigns (lines 203-214),
named by their roles. -/
inductive GpR where
  | a_addr | b_addr | c_addr | a_sum_addr | hReg | wReg | c_inReg
  | mask_addr | a_zero_point | b_zero_point_addr | ic_loop_count | a_addr_save
deriving DecidableEq

/-- The instructions the generator emits.  Vector registers are identified by
their `Ymm` index (a `Nat`), general registers by `GpR`.  Memory operands are
`(base register, constant byte offset)`. -/
inductive Instr where
  | vmovupsLoad (dst : Nat) (base : GpR) (off : Nat)
  | vmovupsStore (base : GpR) (off : Nat) (src : Nat)
  | vmovupsRR (dst src : Nat)
  | vmaskmovps (dst mask : Nat) (base : GpR)
  | vmovapsRR (dst src : Nat)
  | vpunpcklbw (d s1 s2 : Nat)
  | vpunpckhbw (d s1 s2 : Nat)
  | vpunpcklwd (d s1 s2 : Nat)
  | vpunpckhwd (d s1 s2 : Nat)
  | vpmaddubswRR (d s1 s2 : Nat)
  | vpmaddubswRM (d s1 : Nat) (base : GpR) (off : Nat)
  | vpaddsw (d s1 s2 : Nat)
  | vpmaddwd (d s1 s2 : Nat)
  | vpaddd (d s1 s2 : Nat)
  | vpmovsxwd (d s : Nat)
  | vpmulld (d s1 s2 : Nat)
  | vextracti128 (d s : Nat) (imm : Nat)
  | vperm2f128 (d s1 s2 : Nat) (imm : Nat)
  | vpbroadcastb (d s : Nat)
  | vpbroadcastdM (d : Nat) (base : GpR)
  | movqToXmm (d : Nat) (src : GpR)
  | vxorps (d s1 s2 : Nat)
  | ones8 (d : Nat)
  | ones16 (d : Nat)
  | imulGp (d s : GpR)
  | imulImm (d : GpR) (imm : Nat)
  | movGp (d s : GpR)
  | addGp (d s : GpR)
  | addImm (d : GpR) (imm : Nat)
  | subGp (d s : GpR)
  | sarImm (d : GpR) (imm : Nat)
  | decGp (d : GpR)
  | bindL (l : Nat)
  | jle (l : Nat)
  | jmp (l : Nat)
deriving DecidableEq

/-- Instruction stream of `genMaddEpi16xNPacked` (lines 48-169).  `a`, `c`,
`s` give the Ymm indices of the `a[]`, `c[]` and `a_sum[]` register arrays;
`useASum` is `a_sum != nullptr`; the temporaries are `a01_lo = Ymm(0)`,
`a01_hi = Ymm(1)`, `a23_lo = a[1]`, `a23_hi = a[3]` (line 61). -/
def genMaddEpi16xNPacked (a : Nat → Nat) (b : GpR) (c : Nat → Nat)
    (useASum : Bool) (s : Nat → Nat) (n remainder : Nat) (accumulation : Bool)
    (one_epi8 one_epi16 zeroR : Nat) : List Instr :=
  let a01_lo := 0
  let a01_hi := 1
  let a23_lo := a 1
  let a23_hi := a 3
  [Instr.vpunpcklbw a01_lo (a 0) (if n = 1 then zeroR else a 1)] ++
  (if 8 ≤ remainder then
    [Instr.vpunpckhbw a01_hi (a 0) (if n = 1 then zeroR else a 1)] else []) ++
  (if 2 < n then
    [Instr.vpunpcklbw a23_lo (a 2) (if n = 3 then zeroR else a 3)] ++
    (if 8 ≤ remainder then
      [Instr.vpunpckhbw a23_hi (a 2) (if n = 3 then zeroR else a 3)] else [])
   else []) ++
  (if useASum then
    (if accumulation then
      [Instr.vpmaddubswRR (a 0) a01_lo one_epi8,
       Instr.vpaddsw (s 0) (a 0) (s 0)] ++
      (if 8 ≤ remainder then
        [Instr.vpmaddubswRR (a 2) a01_hi one_epi8,
         Instr.vpaddsw (s 1) (a 2) (s 1)] else [])
     else
      [Instr.vpmaddubswRR (s 0) a01_lo one_epi8] ++
      (if 8 ≤ remainder then
        [Instr.vpmaddubswRR (s 1) a01_hi one_epi8] else [])) ++
    (if 2 < n then
      [Instr.vpmaddubswRR (a 0) a23_lo one_epi8,
       Instr.vpaddsw (s 0) (a 0) (s 0)] ++
      (if 8 ≤ remainder then
        [Instr.vpmaddubswRR (a 2) a23_hi one_epi8,
         Instr.vpaddsw (s 1) (a 2) (s 1)] else [])
     else [])
   else []) ++
  (if 2 < n then
    [Instr.vpunpcklwd (a 0) a01_lo a23_lo,
     Instr.vpunpckhwd (a 1) a01_lo a23_lo] ++
    (if 16 ≤ remainder then
      [Instr.vpunpcklwd (a 2) a01_hi a23_hi,
       Instr.vpunpckhwd (a 3) a01_hi a23_hi] else []) ++
    [Instr.vpmaddubswRM (a 0) (a 0) b 0,
     Instr.vpmaddubswRM (a 1) (a 1) b 32] ++
    (if 16 ≤ remainder then
      [Instr.vpmaddubswRM (a 2) (a 2) b 64,
       Instr.vpmaddubswRM (a 3) (a 3) b 96] else []) ++
    (if accumulation then
      [Instr.vpmaddwd (a 0) (a 0) one_epi16,
       Instr.vpaddd (c 0) (c 0) (a 0),
       Instr.vpmaddwd (a 1) (a 1) one_epi16,
       Instr.vpaddd (c 1) (c 1) (a 1)] ++
      (if 16 ≤ remainder then
        [Instr.vpmaddwd (a 2) (a 2) one_epi16,
         Instr.vpaddd (c 2) (c 2) (a 2),
         Instr.vpmaddwd (a 3) (a 3) one_epi16,
         Instr.vpaddd (c 3) (c 3) (a 3)] else [])
     else
      [Instr.vpmaddwd (c 0) (a 0) one_epi16,
       Instr.vpmaddwd (c 1) (a 1) one_epi16] ++
      (if 16 ≤ remainder then
        [Instr.vpmaddwd (c 2) (a 2) one_epi16,
         Instr.vpmaddwd (c 3) (a 3) one_epi16] else []))
   else
    [Instr.vpmaddubswRM (a 0) a01_lo b 0,
     Instr.vpmaddubswRM (a 1) a01_hi b 32] ++
    (if accumulation then
      [Instr.vpmovsxwd (a 2) (a 0),
       Instr.vpaddd (c 0) (c 0) (a 2),
       Instr.vpmovsxwd (a 3) (a 1),
       Instr.vpaddd (c 1) (c 1) (a 3)] ++
      (if 16 ≤ remainder then
        [Instr.vextracti128 (a 0) (a 0) 1,
         Instr.vpmovsxwd (a 0) (a 0),
         Instr.vpaddd (c 2) (c 2) (a 0),
         Instr.vextracti128 (a 1) (a 1) 1,
         Instr.vpmovsxwd (a 1) (a 1),
         Instr.vpaddd (c 3) (c 3) (a 1)] else [])
     else
      [Instr.vpmovsxwd (c 0) (a 0),
       Instr.vpmovsxwd (c 1) (a 1)] ++
      (if 16 ≤ remainder then
        [Instr.vextracti128 (a 0) (a 0) 1,
         Instr.vpmovsxwd (c 2) (a 0),
         Instr.vextracti128 (a 1) (a 1) 1,
         Instr.vpmovsxwd (c 3) (a 1)] else [])))

/-- The repack condition at a compute point with current tap index `i`
(line 408): `K - i / 4 * 4 >= 3 && K - i / 4 * 4 <= 6`. -/
def Sig.repackCond (sg : Sig) (i : Nat) : Bool :=
  decide (3 ≤ sg.K - i / 4 * 4) && decide (sg.K - i / 4 * 4 ≤ 6)

/-- The cross-lane re-pack pair emitted when `repackCond` holds
(lines 408-419). -/
def repackInstrs (sg : Sig) (main_loop : Bool) : List Instr :=
  ((List.range (if main_loop then 4 else sg.remainder / 8)).map fun r =>
    Instr.vperm2f128 (aReg r) (cReg (r % 2 * 2)) (cReg (r % 2 * 2 + 1))
      (if r < 2 then 0x20 else 0x31)) ++
  ((List.range (if main_loop then 4 else sg.remainder / 8)).map fun r =>
    Instr.vmovapsRR (cReg r) (aReg r))

/-- The A-load for tap `i` (lines 370-379): a zero-point register copy when
the tap is padded, otherwise a (masked in the last vector iteration when the
remainder is partial) memory load. -/
def emitLoadA (sg : Sig) (main_loop : Bool) (i : Nat) (pad : Bool) :
    List Instr :=
  if pad then [Instr.vmovupsRR (aReg (i % 4)) sg.zpReg]
  else if !main_loop && sg.remainder ≠ 32 then
    [Instr.vmaskmovps (aReg (i % 4)) sg.maskReg GpR.a_addr]
  else [Instr.vmovupsLoad (aReg (i % 4)) GpR.a_addr 0]

/-- The compute section run when a quad is full or at the last tap
(lines 381-420): optional in-loop re-zeroing of the shared register, the
packed multiply-add, the weight-pointer advance, and the optional re-pack. -/
def emitCompute (sg : Sig) (main_loop : Bool) (i : Nat) : List Instr :=
  if i % 4 = 3 ∨ i = sg.K - 1 then
    (if i = sg.K - 1 ∧ (i / 4 * 4 = sg.K - 3 ∨ i / 4 * 4 = sg.K - 1) ∧
        sg.recompute_zero ∧ sg.has_pad then
      [Instr.vxorps sg.zeroReg sg.zeroReg sg.zeroReg] else []) ++
    genMaddEpi16xNPacked aReg GpR.b_addr cReg sg.compute_a_sum sReg
      (min (sg.K - i / 4 * 4) 4) (if main_loop then 32 else sg.remainder)
      (decide (0 < i / 4)) sg.one8Reg sg.one16Reg sg.zeroReg ++
    (if i ≠ sg.K - 1 then [Instr.addImm GpR.b_addr 128]
     else if main_loop then
      [Instr.addImm GpR.b_addr (32 * ((sg.K - i / 4 * 4 + 1) / 2 * 2))]
     else []) ++
    (if sg.repackCond i then repackInstrs sg main_loop else [])
  else []

/-- The full emitted body of the tap at filter offset `(f_t, f_h, f_w)` with
running index `i` (lines 358-424). -/
def emitTapBody (sg : Sig) (main_loop : Bool) (f_t f_h f_w i : Nat) :
    List Instr :=
  emitLoadA sg main_loop i (sg.padAt f_t f_h f_w) ++
  emitCompute sg main_loop i ++
  (if i ≠ sg.K - 1 then [Instr.addGp GpR.a_addr GpR.c_inReg] else [])

/-- One `f_h` row of taps followed by the row-stride advance (lines 357-427);
after the inner loop the C++ counter `i` equals `(f_t * S + f_h + 1) * S`. -/
def emitRow (sg : Sig) (main_loop : Bool) (f_t f_h : Nat) : List Instr :=
  ((List.range sg.S).flatMap fun f_w =>
    emitTapBody sg main_loop f_t f_h f_w ((f_t * sg.S + f_h) * sg.S + f_w)) ++
  (if (f_t * sg.S + f_h + 1) * sg.S ≠ sg.K - 1 then
    [Instr.addGp GpR.a_addr GpR.wReg] else [])

/-- One `f_t` plane of rows followed by the plane-stride advance
(lines 356-431); after the row loop `i` equals `(f_t + 1) * S * S`. -/
def emitPlane (sg : Sig) (main_loop : Bool) (f_t : Nat) : List Instr :=
  ((List.range sg.S).flatMap fun f_h => emitRow sg main_loop f_t f_h) ++
  (if 3 ≤ sg.D ∧ (f_t + 1) * sg.S * sg.S ≠ sg.K - 1 then
    [Instr.addGp GpR.a_addr GpR.hReg] else [])

/-- The whole reduction over the filter dimension (lines 354-432): the depth
loop runs once for 2-D and `S` times for 3-D. -/
def emitTaps (sg : Sig) (main_loop : Bool) : List Instr :=
  (List.range (if sg.D = 2 then 1 else sg.S)).flatMap fun f_t =>
    emitPlane sg main_loop f_t

/-- The loop head `ic_loop_begin: dec; jle ic_loop_end` (lines 343-347),
emitted for the main iteration only. -/
def emitLoopHead (main_loop : Bool) : List Instr :=
  if main_loop then
    [Instr.bindL 0, Instr.decGp GpR.ic_loop_count, Instr.jle 1] else []

/-- The zero-point broadcast pair `movq; vpbroadcastb` (lines 310-312 and
349-352). -/
def emitZpPair (sg : Sig) : List Instr :=
  [Instr.movqToXmm sg.zpReg GpR.a_zero_point,
   Instr.vpbroadcastb sg.zpReg sg.zpReg]

/-- The C-accumulator stores of one iteration (lines 434-436): 4 vectors in
the main loop, `remainder / 8` in the tail. -/
def emitCStores (sg : Sig) (main_loop : Bool) : List Instr :=
  (List.range (if main_loop then 4 else sg.remainder / 8)).map fun r =>
    Instr.vmovupsStore GpR.c_addr (r * 32) (cReg r)

/-- The row-sum output section (lines 438-483): multiply the widened row
sums by the weight zero point (broadcast scalar or per-channel vector) and
store four 8-channel blocks, then advance the cursors in the main loop. -/
def emitSumSec (sg : Sig) (main_loop : Bool) : List Instr :=
  if sg.compute_a_sum then
    (if sg.per_channel_quantization then
      [Instr.vmovupsLoad (cReg 0) GpR.b_zero_point_addr 0]
     else [Instr.vpbroadcastdM (cReg 0) GpR.b_zero_point_addr]) ++
    [Instr.vpmovsxwd (aReg 0) (sReg 0),
     Instr.vpmulld (aReg 0) (aReg 0) (cReg 0),
     Instr.vmovupsStore GpR.a_sum_addr 0 (aReg 0)] ++
    (if main_loop ∨ 8 ≤ sg.remainder then
      (if sg.per_channel_quantization then
        [Instr.vmovupsLoad (cReg 0) GpR.b_zero_point_addr 32] else []) ++
      [Instr.vpmovsxwd (aReg 1) (sReg 1),
       Instr.vpmulld (aReg 1) (aReg 1) (cReg 0),
       Instr.vmovupsStore GpR.a_sum_addr 32 (aReg 1)] else []) ++
    (if main_loop ∨ 16 ≤ sg.remainder then
      (if sg.per_channel_quantization then
        [Instr.vmovupsLoad (cReg 0) GpR.b_zero_point_addr 64] else []) ++
      [Instr.vextracti128 (sReg 0) (sReg 0) 1,
       Instr.vpmovsxwd (sReg 0) (sReg 0),
       Instr.vpmulld (sReg 0) (sReg 0) (cReg 0),
       Instr.vmovupsStore GpR.a_sum_addr 64 (sReg 0)] else []) ++
    (if main_loop ∨ 24 ≤ sg.remainder then
      (if sg.per_channel_quantization then
        [Instr.vmovupsLoad (cReg 0) GpR.b_zero_point_addr 96] else []) ++
      [Instr.vextracti128 (sReg 1) (sReg 1) 1,
       Instr.vpmovsxwd (sReg 1) (sReg 1),
       Instr.vpmulld (sReg 1) (sReg 1) (cReg 0),
       Instr.vmovupsStore GpR.a_sum_addr 96 (sReg 1)] else []) ++
    (if main_loop then
      (if sg.per_channel_quantization then
        [Instr.addImm GpR.b_zero_point_addr 128] else []) ++
      [Instr.addImm GpR.a_sum_addr 128] else [])
  else []

/-- The end of the main iteration (lines 485-491): output-pointer advances,
activation-base reset, back jump, exit label. -/
def emitMainTail (main_loop : Bool) : List Instr :=
  if main_loop then
    [Instr.addImm GpR.c_addr 128, Instr.addImm GpR.a_addr_save 32,
     Instr.movGp GpR.a_addr GpR.a_addr_save, Instr.jmp 0, Instr.bindL 1]
  else []

/-- The per-vector-iteration body (lines 342-493).  For the main iteration it
starts with the loop head and ends with the back jump and the exit label; the
`main_loop = false` body is the single tail iteration over the remainder
group. -/
def emitIterBody (sg : Sig) (main_loop : Bool) : List Instr :=
  emitLoopHead main_loop ++
  (if sg.recompute_zero ∧ sg.has_pad then emitZpPair sg else []) ++
  emitTaps sg main_loop ++
  emitCStores sg main_loop ++
  emitSumSec sg main_loop ++
  emitMainTail main_loop

/-- The pre-loop set-up (lines 278-339): materialized constants, stride
precomputation and the channel-group loop count `(c_in + 31) >> 5`. -/
def emitInit (sg : Sig) : List Instr :=
  (if sg.remainder ≠ 32 then
    [Instr.vmovupsLoad sg.maskReg GpR.mask_addr
      ((8 - sg.remainder / 4) % 8 * 4)] else []) ++
  (if sg.compute_a_sum then [Instr.ones8 sg.one8Reg] else []) ++
  (if 2 < sg.K then [Instr.ones16 sg.one16Reg] else []) ++
  (if ¬sg.recompute_zero ∧ sg.has_pad then
    [Instr.movqToXmm sg.zpReg GpR.a_zero_point,
     Instr.vpbroadcastb sg.zpReg sg.zpReg] else []) ++
  (if sg.need_zero ∧ (¬sg.recompute_zero ∨ ¬sg.has_pad) then
    [Instr.vxorps sg.zeroReg sg.zeroReg sg.zeroReg] else []) ++
  [Instr.imulGp GpR.wReg GpR.c_inReg, Instr.imulGp GpR.hReg GpR.wReg] ++
  (if 3 ≤ sg.D then
    [Instr.movGp GpR.a_addr_save GpR.wReg,
     Instr.imulImm GpR.a_addr_save sg.S,
     Instr.subGp GpR.hReg GpR.a_addr_save] else []) ++
  [Instr.movGp GpR.a_addr_save GpR.c_inReg,
   Instr.imulImm GpR.a_addr_save sg.S,
   Instr.subGp GpR.wReg GpR.a_addr_save,
   Instr.movGp GpR.ic_loop_count GpR.c_inReg,
   Instr.addImm GpR.ic_loop_count 31,
   Instr.sarImm GpR.ic_loop_count 5,
   Instr.movGp GpR.a_addr_save GpR.a_addr]

/-- The full instruction stream of the generated kernel for a signature
(the builder lambda of `getOrCreate`, lines 197-509, ABI
prologue/epilogue omitted). -/
def emit (sg : Sig) : List Instr :=
  emitInit sg ++ emitIterBody sg true ++ emitIterBody sg false

/-- Machine state of the generated kernel: general registers (64-bit,
modelled as unbounded `Int`: the generator's address arithmetic stays far
from 2^63 for consistent inputs), the 16 vector registers, and byte
memory. -/
structure MState where
  gp : GpR → Int
  ymm : Nat → Vec
  mem : Int → Nat

/-- Update one general register. -/
def setGp (st : MState) (r : GpR) (v : Int) : MState :=
  { st with gp := fun r' => if r' = r then v else st.gp r' }

/-- Update one vector register. -/
def setYmm (st : MState) (r : Nat) (v : Vec) : MState :=
  { st with ymm := fun r' => if r' = r then v else st.ymm r' }

/-- One-instruction semantics.  Labels and jumps are no-ops here: the only
control flow in the stream is the single channel-group loop, which the
runner `kernelRun` resolves via `loopSim`. -/
def execInstr (st : MState) : Instr → MState
  | Instr.vmovupsLoad d b off => setYmm st d (loadMem st.mem (st.gp b + off))
  | Instr.vmovupsStore b off s =>
      { st with mem := storeMem st.mem (st.gp b + off) (st.ymm s) }
  | Instr.vmovupsRR d s => setYmm st d (st.ymm s)
  | Instr.vmaskmovps d m b =>
      setYmm st d (maskLoadMem (st.ymm m) st.mem (st.gp b))
  | Instr.vmovapsRR d s => setYmm st d (st.ymm s)
  | Instr.vpunpcklbw d s1 s2 =>
      setYmm st d (vpunpcklbwV (st.ymm s1) (st.ymm s2))
  | Instr.vpunpckhbw d s1 s2 =>
      setYmm st d (vpunpckhbwV (st.ymm s1) (st.ymm s2))
  | Instr.vpunpcklwd d s1 s2 =>
      setYmm st d (vpunpcklwdV (st.ymm s1) (st.ymm s2))
  | Instr.vpunpckhwd d s1 s2 =>
      setYmm st d (vpunpckhwdV (st.ymm s1) (st.ymm s2))
  | Instr.vpmaddubswRR d s1 s2 =>
      setYmm st d (vpmaddubswV (st.ymm s1) (st.ymm s2))
  | Instr.vpmaddubswRM d s1 b off =>
      setYmm st d (vpmaddubswV (st.ymm s1) (loadMem st.mem (st.gp b + off)))
  | Instr.vpaddsw d s1 s2 => setYmm st d (vpaddswV (st.ymm s1) (st.ymm s2))
  | Instr.vpmaddwd d s1 s2 => setYmm st d (vpmaddwdV (st.ymm s1) (st.ymm s2))
  | Instr.vpaddd d s1 s2 => setYmm st d (vpadddV (st.ymm s1) (st.ymm s2))
  | Instr.vpmovsxwd d s => setYmm st d (vpmovsxwdV (st.ymm s))
  | Instr.vpmulld d s1 s2 => setYmm st d (vpmulldV (st.ymm s1) (st.ymm s2))
  | Instr.vextracti128 d s _ => setYmm st d (vextractHiV (st.ymm s))
  | Instr.vperm2f128 d s1 s2 imm =>
      setYmm st d (vperm2f128V (st.ymm s1) (st.ymm s2) imm)
  | Instr.vpbroadcastb d s => setYmm st d (broadcastBV (st.ymm s))
  | Instr.vpbroadcastdM d b =>
      setYmm st d (broadcastDV (dwordMem st.mem (st.gp b)))
  | Instr.movqToXmm d s => setYmm st d (movqGpV (st.gp s))
  | Instr.vxorps d s1 s2 => setYmm st d (vxorV (st.ymm s1) (st.ymm s2))
  | Instr.ones8 d => setYmm st d onesBV
  | Instr.ones16 d => setYmm st d ones16V
  | Instr.imulGp d s => setGp st d (st.gp d * st.gp s)
  | Instr.imulImm d i => setGp st d (st.gp d * i)
  | Instr.movGp d s => setGp st d (st.gp s)
  | Instr.addGp d s => setGp st d (st.gp d + st.gp s)
  | Instr.addImm d i => setGp st d (st.gp d + i)
  | Instr.subGp d s => setGp st d (st.gp d - st.gp s)
  | Instr.sarImm d i => setGp st d (Int.fdiv (st.gp d) (2 ^ i))
  | Instr.decGp d => setGp st d (st.gp d - 1)
  | Instr.bindL _ => st
  | Instr.jle _ => st
  | Instr.jmp _ => st

/-- Straight-line execution of an instruction list. -/
def execList (st : MState) (l : List Instr) : MState := l.foldl execInstr st

/-- Fuel-driven simulation of the `dec` / `jle` loop head: the body executes
while the decremented counter is still positive. -/
def loopSimGo : Nat → Int → Nat
  | 0, _ => 0
  | fuel + 1, count => if count - 1 ≤ 0 then 0 else 1 + loopSimGo fuel (count - 1)

/-- Number of times the `dec` / `jle`-guarded loop body runs when entered
with the given counter (lines 344-347, 489-491).  `count.toNat` fuel always
suffices since each pass decrements the counter. -/
def loopSim (count : Int) : Nat := loopSimGo count.toNat count

/-- Iterate the main-loop body. -/
def iterN (sg : Sig) : Nat → MState → MState
  | 0, st => st
  | n + 1, st => iterN sg n (execList st (emitIterBody sg true))

/-- Execution of the whole generated kernel: the init section, then the main
body as many times as the counter allows (each pass performs its own `dec`),
then the final loop-head pass whose `jle` exits, then the tail iteration. -/
def kernelRun (sg : Sig) (st0 : MState) : MState :=
  execList
    (execList
      (iterN sg (loopSim ((execList st0 (emitInit sg)).gp GpR.ic_loop_count))
        (execList st0 (emitInit sg)))
      [Instr.bindL 0, Instr.decGp GpR.ic_loop_count, Instr.jle 1])
    (emitIterBody sg false)

/-- Modelled from the spec: the `CodeCache` collaborator (`./CodeCache.h` is
not part of this snapshot; only its use at lines 30-36 and 197 is).  Spec 4.1:
a memoizing map from signatures to built kernels; on failure "the cache
stores nothing for that signature and a future call may retry the build". -/
structure CacheState where
  entries : Sig → Option (List Instr)

/-- The empty cache. -/
def emptyCache : CacheState := ⟨fun _ => none⟩

/-- The builder lambda's observable result (lines 497-508): on successful
commitment of the stream to executable memory the callable is the generated
stream, otherwise (`err` from `runtime().add`) a null callable.  `commitOk`
models the code-memory manager's success, which is environmental. -/
def buildKernel (commitOk : Bool) (sg : Sig) : Option (List Instr) :=
  if commitOk then some (emit sg) else none

/-- Modelled from the spec: `CodeCache::getOrCreate` — return the memoized
kernel if present, otherwise run the builder; a successful build is inserted,
a failed build leaves the cache unchanged.  The third component records
whether the builder ran (i.e. whether any compilation happened). -/
def cacheGetOrCreate (st : CacheState) (sg : Sig) (commitOk : Bool) :
    Option (List Instr) × CacheState × Bool :=
  match st.entries sg with
  | some v => (some v, st, false)
  | none =>
    match buildKernel commitOk sg with
    | some v =>
        (some v, ⟨fun k => if k = sg then some v else st.entries k⟩, true)
    | none => (none, st, true)

/-- The flattened tap list of a signature, in emission order. -/
def tapList (sg : Sig) : List (Nat × Nat × Nat) :=
  (List.range (if sg.D = 2 then 1 else sg.S)).flatMap fun f_t =>
    (List.range sg.S).flatMap fun f_h =>
      (List.range sg.S).map fun f_w => (f_t, f_h, f_w)

/-- The byte the kernel's zero-point broadcast produces from the
`a_zero_point` argument (`movq` then `vpbroadcastb`). -/
def aZpByte (azp : Int) : Nat := (azp % 18446744073709551616).toNat % 256

/-- Modelled from the spec: the naive reference depthwise convolution
(spec 8, "Convolution correctness"), in exact integer arithmetic.
`A` is read at the tap's spatial offset (strides from the runtime `h`, `w`,
`c_in`), padded taps use the broadcast activation zero-point byte, and the
pre-interleaved weight byte for tap `i` and channel `ch` sits at the offset
the generated quad reads it from:
block `ch % 16 / 4` of quad `i / 4`, dword `ch / 16 * 4 + ch % 4`,
byte `i % 4`. -/
def refConv (sg : Sig) (amem : Int → Nat) (a0 : Int) (bmem : Int → Nat)
    (b0 : Int) (azp : Int) (h w c_in : Nat) (ch : Nat) : Int :=
  ((tapList sg).map fun t =>
    let f_t := t.1
    let f_h := t.2.1
    let f_w := t.2.2
    let i := (f_t * sg.S + f_h) * sg.S + f_w
    let aVal : Nat :=
      if sg.padAt f_t f_h f_w then aZpByte azp
      else amem (a0 + (f_t * (h * w * c_in) + f_h * (w * c_in) +
        f_w * c_in + ch)) % 256
    (aVal : Int) * toI8 (bmem (b0 + (128 * (i / 4) + ch % 16 / 4 * 32 +
      (ch / 16 * 4 + ch % 4) * 4 + i % 4)))).sum

/-- Is this instruction a branch (conditional or unconditional jump)? -/
def isJumpB : Instr → Bool
  | Instr.jle _ => true
  | Instr.jmp _ => true
  | _ => false

/-- Is this instruction a cross-lane `vperm2f128`? -/
def isPermB : Instr → Bool
  | Instr.vperm2f128 _ _ _ _ => true
  | _ => false

/-- Extract a 32-byte store through the given base pointer as an
`(offset, source register)` pair. -/
def storeF (base : GpR) : Instr → Option (Nat × Nat)
  | Instr.vmovupsStore b off s => if b = base then some (off, s) else none
  | _ => none

/-- The 32-byte store instructions through a given base pointer, as
`(offset, source register)` pairs. -/
def storesVia (base : GpR) (l : List Instr) : List (Nat × Nat) :=
  l.filterMap (storeF base)

/-- Extract the offset of a plain vector load through the given base
pointer. -/
def loadF (base : GpR) : Instr → Option Nat
  | Instr.vmovupsLoad _ b off => if b = base then some off else none
  | _ => none

/-- The offsets of vector loads through a given base pointer. -/
def loadOffsVia (base : GpR) (l : List Instr) : List Nat :=
  l.filterMap (loadF base)

/-- All Ymm register operands named by an instruction. -/
def ymmRegs : Instr → List Nat
  | Instr.vmovupsLoad d _ _ => [d]
  | Instr.vmovupsStore _ _ s => [s]
  | Instr.vmovupsRR d s => [d, s]
  | Instr.vmaskmovps d m _ => [d, m]
  | Instr.vmovapsRR d s => [d, s]
  | Instr.vpunpcklbw d s1 s2 => [d, s1, s2]
  | Instr.vpunpckhbw d s1 s2 => [d, s1, s2]
  | Instr.vpunpcklwd d s1 s2 => [d, s1, s2]
  | Instr.vpunpckhwd d s1 s2 => [d, s1, s2]
  | Instr.vpmaddubswRR d s1 s2 => [d, s1, s2]
  | Instr.vpmaddubswRM d s1 _ _ => [d, s1]
  | Instr.vpaddsw d s1 s2 => [d, s1, s2]
  | Instr.vpmaddwd d s1 s2 => [d, s1, s2]
  | Instr.vpaddd d s1 s2 => [d, s1, s2]
  | Instr.vpmovsxwd d s => [d, s]
  | Instr.vpmulld d s1 s2 => [d, s1, s2]
  | Instr.vextracti128 d s _ => [d, s]
  | Instr.vperm2f128 d s1 s2 _ => [d, s1, s2]
  | Instr.vpbroadcastb d s => [d, s]
  | Instr.vpbroadcastdM d _ => [d]
  | Instr.movqToXmm d _ => [d]
  | Instr.vxorps d s1 s2 => [d, s1, s2]
  | Instr.ones8 d => [d]
  | Instr.ones16 d => [d]
  | _ => []

/-- Depth coordinate of the flattened tap index. -/
def coordT (sg : Sig) (i : Nat) : Nat := i / (sg.S * sg.S)

/-- Row coordinate of the flattened tap index. -/
def coordH (sg : Sig) (i : Nat) : Nat := i / sg.S % sg.S

/-- Column coordinate of the flattened tap index. -/
def coordW (sg : Sig) (i : Nat) : Nat := i % sg.S

/-- The tap body in flattened form: the per-tap instructions together with
the row/plane stride advances that the nested loops emit right after their
last tap. -/
def tapFlat (sg : Sig) (main_loop : Bool) (i : Nat) : List Instr :=
  emitTapBody sg main_loop (coordT sg i) (coordH sg i) (coordW sg i) i ++
  (if coordW sg i = sg.S - 1 ∧ i + 1 ≠ sg.K - 1 then
    [Instr.addGp GpR.a_addr GpR.wReg] else []) ++
  (if coordW sg i = sg.S - 1 ∧ coordH sg i = sg.S - 1 ∧ 3 ≤ sg.D ∧
      i + 1 ≠ sg.K - 1 then
    [Instr.addGp GpR.a_addr GpR.hReg] else [])

/-- A 2-D 2x2 signature (K = 4, no padding, full remainder). -/
def sigS2 : Sig := ⟨2, 2, false, false, 32, 0, 0, 0, 0, 0, 0⟩

/-- A 2-D 12x12 row-sum signature (K = 144: enough taps to saturate the
16-bit row-sum accumulator). -/
def sigS12 : Sig := ⟨2, 12, true, false, 32, 0, 0, 0, 0, 0, 0⟩

/-- A signature whose remainder (5) is not a multiple of 4. -/
def sigRem5 : Sig := ⟨2, 3, false, false, 5, 0, 0, 0, 0, 0, 0⟩

/-- A 3x3 signature with row sums, per-channel quantization, a partial
remainder and padding on several edges (used by witnesses). -/
def sigWit : Sig := ⟨3, 3, true, true, 7, 1, 0, 2, 0, 0, 1⟩

/-- All-zero vector register file. -/
def ymm0 : Nat → Vec := fun _ => fun _ => 0

/-- Concrete memory for the convolution counterexample: activations 255 on
`[0, 128)`, weight bytes 127 on `[1000, 1128)`. -/
def memS2 : Int → Nat := fun a =>
  if 0 ≤ a ∧ a < 128 then 255 else if 1000 ≤ a ∧ a < 1128 then 127 else 0

/-- Concrete register assignment for the convolution counterexample:
`h = w = 2`, `c_in = 32`, activation zero point 0. -/
def gpS2 : GpR → Int := fun r =>
  match r with
  | GpR.a_addr => 0 | GpR.b_addr => 1000 | GpR.c_addr => 2000
  | GpR.a_sum_addr => 3000 | GpR.hReg => 2 | GpR.wReg => 2
  | GpR.c_inReg => 32 | GpR.mask_addr => 4000 | GpR.a_zero_point => 0
  | GpR.b_zero_point_addr => 5000 | GpR.ic_loop_count => 0
  | GpR.a_addr_save => 0

/-- Initial machine state for the convolution counterexample. -/
def stS2 : MState := ⟨gpS2, ymm0, memS2⟩

/-- Claim C9 as stated: the re-pack is inserted at the compute point of quad
`q` exactly when `K - 4 q` is 3, 5 or 6 (the compute point of quad `q` is tap
`min (4 q + 3) (K - 1)`). -/
def repackSpecStated (sg : Sig) : Prop :=
  ∀ q, q ≤ (sg.K - 1) / 4 →
    (sg.repackCond (min (4 * q + 3) (sg.K - 1)) = true ↔
      (sg.K - 4 * q = 3 ∨ sg.K - 4 * q = 5 ∨ sg.K - 4 * q = 6))

/-- Claim C5's mask-index formula as stated: the single mask-table load of
the stream reads at byte index `(32 - remainder) mod 32`. -/
def maskIdxSpecStated (sg : Sig) : Prop :=
  loadOffsVia GpR.mask_addr (emit sg) = [(32 - sg.remainder) % 32]

/-- Shape invariant of every instruction the tap loop can emit: vector
operands stay below the 16 hardware registers, loads go through `a_addr`
(weights through `b_addr`), no stores, no jumps, no constant
materialization except the shared-register `vxorps` re-zeroing (which only
occurs under `recompute_zero && has_pad`), and the only scalar effects are
the `a_addr` walk and the `b_addr` advance. -/
def TapOk (sg : Sig) : Instr → Prop
  | Instr.vmovupsLoad d b off => d < 16 ∧ b = GpR.a_addr ∧ off = 0
  | Instr.vmaskmovps d m b => d < 16 ∧ m < 16 ∧ b = GpR.a_addr
  | Instr.vmovupsRR d s => d < 16 ∧ s < 16
  | Instr.vmovapsRR d s => d < 16 ∧ s < 16
  | Instr.vpunpcklbw d s1 s2 => d < 16 ∧ s1 < 16 ∧ s2 < 16
  | Instr.vpunpckhbw d s1 s2 => d < 16 ∧ s1 < 16 ∧ s2 < 16
  | Instr.vpunpcklwd d s1 s2 => d < 16 ∧ s1 < 16 ∧ s2 < 16
  | Instr.vpunpckhwd d s1 s2 => d < 16 ∧ s1 < 16 ∧ s2 < 16
  | Instr.vpmaddubswRR d s1 s2 => d < 16 ∧ s1 < 16 ∧ s2 < 16
  | Instr.vpmaddubswRM d s1 b _ => d < 16 ∧ s1 < 16 ∧ b = GpR.b_addr
  | Instr.vpaddsw d s1 s2 => d < 16 ∧ s1 < 16 ∧ s2 < 16
  | Instr.vpmaddwd d s1 s2 => d < 16 ∧ s1 < 16 ∧ s2 < 16
  | Instr.vpaddd d s1 s2 => d < 16 ∧ s1 < 16 ∧ s2 < 16
  | Instr.vpmovsxwd d s => d < 16 ∧ s < 16
  | Instr.vextracti128 d s _ => d < 16 ∧ s < 16
  | Instr.vperm2f128 d s1 s2 _ => d < 16 ∧ s1 < 16 ∧ s2 < 16
  | Instr.vxorps d s1 s2 => d < 16 ∧ s1 < 16 ∧ s2 < 16 ∧ d = sg.zeroReg ∧
      sg.recompute_zero = true ∧ sg.has_pad = true
  | Instr.addGp d _ => d = GpR.a_addr
  | Instr.addImm d _ => d = GpR.b_addr
  | _ => False

/-- Shape invariant of the pre-loop init section (lines 278-339). -/
def InitOk (sg : Sig) : Instr → Prop
  | Instr.vmovupsLoad d b _ => d < 16 ∧ b = GpR.mask_addr ∧
      sg.remainder ≠ 32
  | Instr.ones8 d => d < 16 ∧ sg.compute_a_sum = true
  | Instr.ones16 d => d < 16 ∧ 2 < sg.K
  | Instr.movqToXmm d b => d < 16 ∧ b = GpR.a_zero_point ∧
      sg.has_pad = true ∧ sg.recompute_zero = false
  | Instr.vpbroadcastb d s => d < 16 ∧ s < 16 ∧ sg.has_pad = true ∧
      sg.recompute_zero = false
  | Instr.vxorps d s1 s2 => d < 16 ∧ s1 < 16 ∧ s2 < 16 ∧ d = sg.zeroReg ∧
      sg.need_zero = true ∧
      (sg.recompute_zero = false ∨ sg.has_pad = false)
  | Instr.imulGp _ _ => True
  | Instr.imulImm _ _ => True
  | Instr.movGp _ _ => True
  | Instr.subGp _ _ => True
  | Instr.addImm d _ => d = GpR.ic_loop_count
  | Instr.sarImm d _ => d = GpR.ic_loop_count
  | _ => False

/-- Shape invariant of the row-sum output section (lines 438-483): loads
come from the weight-zero-point pointer, stores go to the auxiliary output
pointer at offsets 0/32/64/96, and the only scalar effects advance the two
cursors. -/
def SumOk : Instr → Prop
  | Instr.vmovupsLoad d b off => d < 16 ∧ b = GpR.b_zero_point_addr ∧
      (off = 0 ∨ off = 32 ∨ off = 64 ∨ off = 96)
  | Instr.vpbroadcastdM d b => d < 16 ∧ b = GpR.b_zero_point_addr
  | Instr.vpmovsxwd d s => d < 16 ∧ s < 16
  | Instr.vpmulld d s1 s2 => d < 16 ∧ s1 < 16 ∧ s2 < 16
  | Instr.vextracti128 d s _ => d < 16 ∧ s < 16
  | Instr.vmovupsStore b off s => b = GpR.a_sum_addr ∧ s < 16 ∧
      (off = 0 ∨ off = 32 ∨ off = 64 ∨ off = 96)
  | Instr.addImm d _ => d = GpR.b_zero_point_addr ∨ d = GpR.a_sum_addr
  | _ => False

/-- Channel held in 16-bit word `j` of row-sum register `a_sum[half]`:
the byte interleave sends channel `16*(j/8) + 8*half + j%8` there. -/
def chS (half j : Nat) : Nat := 16 * (j / 8) + 8 * half + j % 8

/-- The effective activation byte of tap `i` in channel lane `ch` for one
channel-group iteration whose loads start at `a0`: padded taps broadcast the
activation zero point, others read memory at the address the emitted walk
reaches (`cin` per tap, the precomputed row stride `w_r` per row, the plane
stride `h_r` per plane). -/
def Aeff (sg : Sig) (mem : Int → Nat) (a0 cin w_r h_r azp : Int)
    (i ch : Nat) : Nat :=
  if sg.padAt (coordT sg i) (coordH sg i) (coordW sg i) then aZpByte azp
  else mem (a0 + cin * i + w_r * (i / sg.S : Nat) +
    h_r * (i / (sg.S * sg.S) : Nat) + ch) % 256

/-- Sum of the effective activations of the first `m` taps in lane `ch`. -/
def sumA (sg : Sig) (mem : Int → Nat) (a0 cin w_r h_r azp : Int)
    (m ch : Nat) : Nat :=
  ((List.range m).map fun i => Aeff sg mem a0 cin w_r h_r azp i ch).sum

/-- The vector register an instruction writes, if any. -/
def ymmDst : Instr → Option Nat
  | Instr.vmovupsLoad d _ _ => some d
  | Instr.vmovupsRR d _ => some d
  | Instr.vmaskmovps d _ _ => some d
  | Instr.vmovapsRR d _ => some d
  | Instr.vpunpcklbw d _ _ => some d
  | Instr.vpunpckhbw d _ _ => some d
  | Instr.vpunpcklwd d _ _ => some d
  | Instr.vpunpckhwd d _ _ => some d
  | Instr.vpmaddubswRR d _ _ => some d
  | Instr.vpmaddubswRM d _ _ _ => some d
  | Instr.vpaddsw d _ _ => some d
  | Instr.vpmaddwd d _ _ => some d
  | Instr.vpaddd d _ _ => some d
  | Instr.vpmovsxwd d _ => some d
  | Instr.vpmulld d _ _ => some d
  | Instr.vextracti128 d _ _ => some d
  | Instr.vperm2f128 d _ _ _ => some d
  | Instr.vpbroadcastb d _ => some d
  | Instr.vpbroadcastdM d _ => some d
  | Instr.movqToXmm d _ => some d
  | Instr.vxorps d _ _ => some d
  | Instr.ones8 d => some d
  | Instr.ones16 d => some d
  | _ => none

/-- The general register an instruction writes, if any. -/
def gpDst : Instr → Option GpR
  | Instr.imulGp d _ => some d
  | Instr.imulImm d _ => some d
  | Instr.movGp d _ => some d
  | Instr.addGp d _ => some d
  | Instr.addImm d _ => some d
  | Instr.subGp d _ => some d
  | Instr.sarImm d _ => some d
  | Instr.decGp d => some d
  | _ => none

/-- Does the instruction write memory? -/
def isStoreB : Instr → Bool
  | Instr.vmovupsStore _ _ _ => true
  | _ => false

/-- Memory for the row-sum saturation counterexample: activations 255 on
`[0, 4608)` (a 12x12 plane of 32 channels), weight zero point 1 at 5000. -/
def memS12 : Int → Nat := fun a =>
  if 0 ≤ a ∧ a < 4608 then 255 else if a = 5000 then 1 else 0

/-- Registers for one main channel-group iteration of the 12x12 row-sum
kernel: the strides `wReg`/`hReg` already hold their transformed values
`w*c_in - S*c_in = 0` and `h*w*c_in - S*w*c_in = 0`. -/
def gpS12 : GpR → Int := fun r =>
  match r with
  | GpR.a_addr => 0 | GpR.b_addr => 10000 | GpR.c_addr => 30000
  | GpR.a_sum_addr => 40000 | GpR.hReg => 0 | GpR.wReg => 0
  | GpR.c_inReg => 32 | GpR.mask_addr => 50000 | GpR.a_zero_point => 0
  | GpR.b_zero_point_addr => 5000 | GpR.ic_loop_count => 9
  | GpR.a_addr_save => 0

/-- State at the start of a main channel-group iteration of the 12x12
row-sum kernel, with the constant registers materialized as the init
section leaves them. -/
def stS12 : MState :=
  ⟨gpS12,
   fun r => if r = sigS12.one8Reg then onesBV
     else if r = sigS12.one16Reg then ones16V
     else fun _ => 0,
   memS12⟩

/-- Invariant of the tap walk of one main channel-group iteration, after the
first `m` taps have executed starting from state `st0`: memory and the
uninvolved registers are untouched, the activation pointer sits at the
emitted walk's address, the loaded A slots of the current quad hold the
effective activations, and the row-sum registers hold the 16-bit-saturated
sums over the taps whose `vpmaddubsw`/`vpaddsw` reduction has completed. -/
def TapInv (sg : Sig) (st0 : MState) (m : Nat) (st : MState) : Prop :=
  st.mem = st0.mem ∧
  (∀ r, r ≠ GpR.a_addr → r ≠ GpR.b_addr → st.gp r = st0.gp r) ∧
  (m < sg.K → st.gp GpR.a_addr =
    st0.gp GpR.a_addr + st0.gp GpR.c_inReg * (m : Nat) +
    st0.gp GpR.wReg * ((m / sg.S : Nat) : Int) +
    st0.gp GpR.hReg * ((m / (sg.S * sg.S) : Nat) : Int)) ∧
  (∀ r, 12 ≤ r → r ≠ sg.zeroReg → st.ymm r = st0.ymm r) ∧
  (m < sg.K → st.ymm sg.zeroReg = st0.ymm sg.zeroReg) ∧
  (m < sg.K → ∀ t, t < m % 4 → st.ymm (aReg t) =
    fun b => Aeff sg st0.mem (st0.gp GpR.a_addr) (st0.gp GpR.c_inReg)
      (st0.gp GpR.wReg) (st0.gp GpR.hReg) (st0.gp GpR.a_zero_point)
      (m / 4 * 4 + t) b) ∧
  (1 ≤ (if m = sg.K then sg.K else m / 4 * 4) →
    ∀ half j, half < 2 → j < 16 →
      wordOf (st.ymm (sReg half)) j =
        min (sumA sg st0.mem (st0.gp GpR.a_addr) (st0.gp GpR.c_inReg)
          (st0.gp GpR.wReg) (st0.gp GpR.hReg) (st0.gp GpR.a_zero_point)
          (if m = sg.K then sg.K else m / 4 * 4) (chS half j)) 32767)

-- ===================== THEOREMS =====================

theorem fm_app {α : Type} {l1 l2 : List α} {p : α → Prop}
    (h1 : ∀ x ∈ l1, p x) (h2 : ∀ x ∈ l2, p x) : ∀ x ∈ l1 ++ l2, p x := by
  intro x hx
  rcases List.mem_append.mp hx with h | h
  · exact h1 x h
  · exact h2 x h

theorem fm_ite0 {α : Type} {c : Prop} [Decidable c] {l : List α}
    {p : α → Prop} (h : c → ∀ x ∈ l, p x) :
    ∀ x ∈ (if c then l else []), p x := by
  split
  · exact h ‹c›
  · simp

theorem fm_ite {α : Type} {c : Prop} [Decidable c] {l1 l2 : List α}
    {p : α → Prop} (h1 : c → ∀ x ∈ l1, p x) (h2 : ¬c → ∀ x ∈ l2, p x) :
    ∀ x ∈ (if c then l1 else l2), p x := by
  split
  · exact h1 ‹c›
  · exact h2 ‹¬c›

theorem maskReg_le (sg : Sig) : sg.maskReg ≤ 12 := by
  unfold Sig.maskReg Sig.vregAfterSum
  split <;> omega

theorem one8Reg_le (sg : Sig) : sg.one8Reg ≤ 13 := by
  have := maskReg_le sg
  unfold Sig.one8Reg Sig.vregAfterMask
  split <;> omega

theorem one16Reg_le (sg : Sig) : sg.one16Reg ≤ 14 := by
  have := one8Reg_le sg
  unfold Sig.one16Reg Sig.vregAfterOne8
  split <;> omega

theorem zpReg_le (sg : Sig) : sg.zpReg ≤ 15 := by
  have := one16Reg_le sg
  unfold Sig.zpReg Sig.vregAfterOne16
  split <;> omega

theorem zeroReg_le (sg : Sig) : sg.zeroReg ≤ 15 := by
  have := zpReg_le sg
  unfold Sig.zeroReg
  unfold Sig.zpReg at this
  split <;> omega

theorem tapOk_genMadd (sg : Sig) (u : Bool) (n rem : Nat) (acc : Bool) :
    ∀ x ∈ genMaddEpi16xNPacked aReg GpR.b_addr cReg u sReg n rem acc
      sg.one8Reg sg.one16Reg sg.zeroReg, TapOk sg x := by
  have h8 := one8Reg_le sg
  have h16 := one16Reg_le sg
  have hz := zeroReg_le sg
  unfold genMaddEpi16xNPacked
  repeat' first
    | apply fm_app
    | (apply fm_ite0; intro _)
    | (apply fm_ite <;> intro _)
  all_goals
    intro x hx
  all_goals
    fin_cases hx <;>
      (simp only [TapOk, aReg, cReg, sReg]
       repeat' apply And.intro
       all_goals first | trivial | omega | (split <;> omega))

theorem fm_flatMap {α β : Type} {l : List α} {f : α → List β} {p : β → Prop}
    (h : ∀ y ∈ l, ∀ x ∈ f y, p x) : ∀ x ∈ l.flatMap f, p x := by
  intro x hx
  rcases List.mem_flatMap.mp hx with ⟨y, hy, hxy⟩
  exact h y hy x hxy

theorem fm_map {α β : Type} {l : List α} {f : α → β} {p : β → Prop}
    (h : ∀ y ∈ l, p (f y)) : ∀ x ∈ l.map f, p x := by
  intro x hx
  rcases List.mem_map.mp hx with ⟨y, hy, rfl⟩
  exact h y hy

theorem tapOk_repack (sg : Sig) (ml : Bool) (hr : sg.remainder ≤ 32) :
    ∀ x ∈ repackInstrs sg ml, TapOk sg x := by
  have hb : (if ml = true then 4 else sg.remainder / 8) ≤ 4 := by
    split <;> omega
  unfold repackInstrs
  refine fm_app (fm_map fun r hrmem => ?_) (fm_map fun r hrmem => ?_) <;>
    (simp only [List.mem_range] at hrmem
     simp only [TapOk, aReg, cReg]
     repeat' apply And.intro
     all_goals omega)

theorem tapOk_loadA (sg : Sig) (ml : Bool) (i : Nat) (pad : Bool) :
    ∀ x ∈ emitLoadA sg ml i pad, TapOk sg x := by
  have hm := maskReg_le sg
  have hz := zpReg_le sg
  unfold emitLoadA
  split_ifs <;> intro x hx <;> fin_cases hx <;>
    (simp only [TapOk, aReg]
     repeat' apply And.intro
     all_goals first | trivial | omega)

theorem tapOk_compute (sg : Sig) (ml : Bool) (i : Nat)
    (hr : sg.remainder ≤ 32) : ∀ x ∈ emitCompute sg ml i, TapOk sg x := by
  have hz := zeroReg_le sg
  unfold emitCompute
  refine fm_ite0 fun _ => ?_
  refine fm_app (fm_app (fm_app (fm_ite0 fun h => ?_) ?_) ?_)
    (fm_ite0 fun _ => tapOk_repack sg ml hr)
  · intro x hx
    fin_cases hx
    simp only [TapOk]
    repeat' apply And.intro
    all_goals first | trivial | omega | exact h.2.2.1 | exact h.2.2.2
  · exact tapOk_genMadd sg _ _ _ _
  · refine fm_ite (fun _ => ?_) fun _ => fm_ite0 fun _ => ?_ <;>
      (intro x hx; fin_cases hx; simp only [TapOk])

theorem tapOk_tapBody (sg : Sig) (ml : Bool) (f_t f_h f_w i : Nat)
    (hr : sg.remainder ≤ 32) : ∀ x ∈ emitTapBody sg ml f_t f_h f_w i,
      TapOk sg x := by
  unfold emitTapBody
  refine fm_app (fm_app (tapOk_loadA sg ml i _) (tapOk_compute sg ml i hr))
    (fm_ite0 fun _ => ?_)
  intro x hx
  fin_cases hx
  simp only [TapOk]

theorem tapOk_taps (sg : Sig) (ml : Bool) (hr : sg.remainder ≤ 32) :
    ∀ x ∈ emitTaps sg ml, TapOk sg x := by
  unfold emitTaps emitPlane emitRow
  refine fm_flatMap fun f_t _ => ?_
  refine fm_app (fm_flatMap fun f_h _ => ?_) (fm_ite0 fun _ => ?_)
  · refine fm_app (fm_flatMap fun f_w _ => tapOk_tapBody sg ml _ _ _ _ hr)
      (fm_ite0 fun _ => ?_)
    intro x hx
    fin_cases hx
    simp only [TapOk]
  · intro x hx
    fin_cases hx
    simp only [TapOk]

theorem TapOk_no_jump (sg : Sig) (x : Instr) (h : TapOk sg x) :
    isJumpB x = false := by
  cases x <;> simp [isJumpB] <;> simp [TapOk] at h

theorem TapOk_storeF (sg : Sig) (base : GpR) (x : Instr) (h : TapOk sg x) :
    storeF base x = none := by
  cases x <;> simp [storeF] <;> simp [TapOk] at h

theorem TapOk_loadF_ne (sg : Sig) (base : GpR) (hb : base ≠ GpR.a_addr)
    (x : Instr) (h : TapOk sg x) : loadF base x = none := by
  cases x <;> simp [loadF] <;> simp [TapOk] at h
  intro hba
  subst hba
  exact hb h.2.1

theorem SumOk_no_jump (x : Instr) (h : SumOk x) : isJumpB x = false := by
  cases x <;> simp [isJumpB] <;> simp [SumOk] at h

theorem SumOk_storeF_ne (base : GpR) (hb : base ≠ GpR.a_sum_addr)
    (x : Instr) (h : SumOk x) : storeF base x = none := by
  cases x <;> simp [storeF] <;> simp [SumOk] at h
  intro hba
  subst hba
  exact hb h.1

theorem SumOk_loadF_ne (base : GpR) (hb : base ≠ GpR.b_zero_point_addr)
    (x : Instr) (h : SumOk x) : loadF base x = none := by
  cases x <;> simp [loadF] <;> simp [SumOk] at h
  intro hba
  subst hba
  exact hb h.2.1

theorem InitOk_no_jump (sg : Sig) (x : Instr) (h : InitOk sg x) :
    isJumpB x = false := by
  cases x <;> simp [isJumpB] <;> simp [InitOk] at h

theorem InitOk_storeF (sg : Sig) (base : GpR) (x : Instr) (h : InitOk sg x) :
    storeF base x = none := by
  cases x <;> simp [storeF] <;> simp [InitOk] at h

theorem InitOk_loadF_ne (sg : Sig) (base : GpR) (hb : base ≠ GpR.mask_addr)
    (x : Instr) (h : InitOk sg x) : loadF base x = none := by
  cases x <;> simp [loadF] <;> simp [InitOk] at h
  intro hba
  subst hba
  exact hb h.2.1

theorem sumOk_sumSec (sg : Sig) (ml : Bool) :
    ∀ x ∈ emitSumSec sg ml, SumOk x := by
  unfold emitSumSec
  repeat' first
    | apply fm_app
    | (apply fm_ite0; intro _)
    | (apply fm_ite <;> intro _)
  all_goals
    intro x hx
  all_goals
    fin_cases hx <;>
      (simp only [SumOk, aReg, cReg, sReg]
       repeat' apply And.intro
       all_goals first | trivial | omega | simp)

theorem initOk_emitInit (sg : Sig) : ∀ x ∈ emitInit sg, InitOk sg x := by
  have hm := maskReg_le sg
  have h8 := one8Reg_le sg
  have h16 := one16Reg_le sg
  have hzp := zpReg_le sg
  have hz := zeroReg_le sg
  unfold emitInit
  repeat' first
    | apply fm_app
    | (apply fm_ite0; intro hcond)
    | (apply fm_ite <;> intro hcond)
  all_goals
    intro x hx
  all_goals
    fin_cases hx <;>
      (simp only [InitOk]
       repeat' apply And.intro
       all_goals
         first
           | trivial
           | omega
           | exact hcond.1
           | exact hcond.2
           | (simp only [Bool.not_eq_true] at hcond; exact hcond.1)
           | (simp only [Bool.not_eq_true] at hcond; exact hcond.2))

theorem loopSimGo_eq (fuel : Nat) (c : Int) (h : c - 1 ≤ fuel) :
    loopSimGo fuel c = (c - 1).toNat := by
  induction fuel generalizing c with
  | zero =>
    unfold loopSimGo
    omega
  | succ f ih =>
    unfold loopSimGo
    split
    · omega
    · rw [ih (c - 1) (by omega)]
      omega

theorem loopSim_nat (n : Nat) (h : 1 ≤ n) : loopSim (n : Int) = n - 1 := by
  unfold loopSim
  rw [loopSimGo_eq]
  · omega
  · omega

/-- C3: getOrCreate is idempotent per signature — a second call with an
equal signature returns the previously built callable, performs no build,
and leaves the cache unchanged.  (The CodeCache itself is modelled from the
spec; signature equality is component-wise equality of the eleven fields,
which is definitional for `Sig`.) -/
theorem C3_cache_idempotent (st : CacheState) (sg : Sig) (ok1 ok2 : Bool)
    (v : List Instr) (h : (cacheGetOrCreate st sg ok1).1 = some v) :
    (cacheGetOrCreate (cacheGetOrCreate st sg ok1).2.1 sg ok2).1 = some v ∧
    (cacheGetOrCreate (cacheGetOrCreate st sg ok1).2.1 sg ok2).2.2 = false ∧
    (cacheGetOrCreate (cacheGetOrCreate st sg ok1).2.1 sg ok2).2.1 =
      (cacheGetOrCreate st sg ok1).2.1 := by
  cases he : st.entries sg with
  | some w =>
    simp only [cacheGetOrCreate, he] at h ⊢
    simp_all
  | none =>
    cases ok1 with
    | true =>
      simp only [cacheGetOrCreate, buildKernel, he, if_true] at h ⊢
      simp_all
    | false =>
      simp only [cacheGetOrCreate, buildKernel, he] at h
      simp at h

theorem C3_cache_idempotent_witness :
    (cacheGetOrCreate emptyCache sigWit true).1 = some (emit sigWit) ∧
    ((cacheGetOrCreate (cacheGetOrCreate emptyCache sigWit true).2.1 sigWit
        false).1 = some (emit sigWit) ∧
     (cacheGetOrCreate (cacheGetOrCreate emptyCache sigWit true).2.1 sigWit
        false).2.2 = false ∧
     (cacheGetOrCreate (cacheGetOrCreate emptyCache sigWit true).2.1 sigWit
        false).2.1 = (cacheGetOrCreate emptyCache sigWit true).2.1) :=
  ⟨rfl, C3_cache_idempotent emptyCache sigWit true false (emit sigWit) rfl⟩

/-- C7: when committing to executable code memory fails, getOrCreate
returns a null callable, stores nothing for the signature, and a later call
with the same signature retries (and here succeeds) the build.  (The
CodeCache is modelled from the spec.) -/
theorem C7_commit_failure (st : CacheState) (sg : Sig)
    (h : st.entries sg = none) :
    (cacheGetOrCreate st sg false).1 = none ∧
    (cacheGetOrCreate st sg false).2.1.entries sg = none ∧
    (cacheGetOrCreate (cacheGetOrCreate st sg false).2.1 sg true).1 =
      some (emit sg) ∧
    (cacheGetOrCreate (cacheGetOrCreate st sg false).2.1 sg true).2.2 =
      true := by
  simp [cacheGetOrCreate, buildKernel, h]

theorem C7_commit_failure_witness :
    emptyCache.entries sigWit = none ∧
    ((cacheGetOrCreate emptyCache sigWit false).1 = none ∧
     (cacheGetOrCreate emptyCache sigWit false).2.1.entries sigWit = none ∧
     (cacheGetOrCreate (cacheGetOrCreate emptyCache sigWit false).2.1 sigWit
        true).1 = some (emit sigWit) ∧
     (cacheGetOrCreate (cacheGetOrCreate emptyCache sigWit false).2.1 sigWit
        true).2.2 = true) :=
  ⟨rfl, C7_commit_failure emptyCache sigWit rfl⟩

theorem jumps_emit (sg : Sig) (hr : sg.remainder ≤ 32) :
    (emit sg).filter isJumpB = [Instr.jle 1, Instr.jmp 0] := by
  have hinit : (emitInit sg).filter isJumpB = [] :=
    List.filter_eq_nil_iff.mpr fun a ha => by
      simp [InitOk_no_jump sg a (initOk_emitInit sg a ha)]
  have htaps : ∀ ml, (emitTaps sg ml).filter isJumpB = [] := fun ml =>
    List.filter_eq_nil_iff.mpr fun a ha => by
      simp [TapOk_no_jump sg a (tapOk_taps sg ml hr a ha)]
  have hsum : ∀ ml, (emitSumSec sg ml).filter isJumpB = [] := fun ml =>
    List.filter_eq_nil_iff.mpr fun a ha => by
      simp [SumOk_no_jump a (sumOk_sumSec sg ml a ha)]
  have hcs : ∀ ml, (emitCStores sg ml).filter isJumpB = [] := by
    intro ml
    refine List.filter_eq_nil_iff.mpr (fm_map fun r hr2 => ?_)
    simp [isJumpB]
  have hzp : ∀ c : Prop, ∀ inst : Decidable c,
      (if c then emitZpPair sg else []).filter isJumpB = [] := by
    intro c inst
    split <;> simp [emitZpPair, isJumpB]
  unfold emit emitIterBody
  simp only [List.filter_append, hinit, htaps, hsum, hcs, hzp,
    emitLoopHead, emitMainTail]
  simp [isJumpB, List.filter]

/-- C2: padding is static per signature — a tap is padded exactly when it
falls in a skip range on some axis (the depth test only for 3-D); each tap's
first emitted instruction is a zero-point register copy when padded and a
(masked only in the partial-remainder tail) memory load otherwise, chosen at
generation time; and the whole stream's only branches are the channel-loop
`jle`/`jmp`, so no runtime branch depends on padding. -/
theorem C2_static_padding (sg : Sig) (hwf : sg.WF) :
    (∀ f_t f_h f_w, sg.padAt f_t f_h f_w = true ↔
      ((2 < sg.D ∧ (f_t < sg.prev_skip ∨ sg.S - sg.next_skip ≤ f_t)) ∨
        f_h < sg.top_skip ∨ sg.S - sg.bottom_skip ≤ f_h ∨
        f_w < sg.left_skip ∨ sg.S - sg.right_skip ≤ f_w)) ∧
    (∀ ml f_t f_h f_w i, (emitTapBody sg ml f_t f_h f_w i).head? =
      some (if sg.padAt f_t f_h f_w then
          Instr.vmovupsRR (aReg (i % 4)) sg.zpReg
        else if ml = false ∧ sg.remainder ≠ 32 then
          Instr.vmaskmovps (aReg (i % 4)) sg.maskReg GpR.a_addr
        else Instr.vmovupsLoad (aReg (i % 4)) GpR.a_addr 0)) ∧
    (emit sg).filter isJumpB = [Instr.jle 1, Instr.jmp 0] := by
  refine ⟨fun f_t f_h f_w => ?_, fun ml f_t f_h f_w i => ?_,
    jumps_emit sg hwf.2.2.2⟩
  · simp [Sig.padAt, Bool.or_eq_true, Bool.and_eq_true, decide_eq_true_eq]
    tauto
  · unfold emitTapBody emitLoadA
    split_ifs <;> simp_all

theorem flatMap_congr {α β : Type} {l : List α} {f g : α → List β}
    (h : ∀ x ∈ l, f x = g x) : l.flatMap f = l.flatMap g := by
  induction l with
  | nil => rfl
  | cons a l ih =>
    simp only [List.flatMap_cons]
    rw [h a (by simp), ih fun x hx => h x (by simp [hx])]

theorem range_mul_flatMap {α : Type} (a b : Nat) (f : Nat → Nat → List α) :
    (List.range (a * b)).flatMap (fun i => f (i / b) (i % b)) =
      (List.range a).flatMap fun x => (List.range b).flatMap fun y =>
        f x y := by
  rcases Nat.eq_zero_or_pos b with rfl | hb
  · simp
  induction a with
  | zero => simp
  | succ a ih =>
    rw [Nat.succ_mul, List.range_add, List.flatMap_append, ih,
      List.range_succ, List.flatMap_append]
    congr 1
    rw [List.flatMap_map, List.flatMap_singleton]
    refine flatMap_congr fun y hy => ?_
    rw [List.mem_range] at hy
    have hd : (a * b + y) / b = a := by
      rw [Nat.add_comm, Nat.add_mul_div_right y a hb, Nat.div_eq_of_lt hy]
      omega
    have hm : (a * b + y) % b = y := by
      rw [Nat.add_comm, Nat.add_mul_mod_self_right, Nat.mod_eq_of_lt hy]
    rw [hd, hm]

theorem absorb_suffix {α : Type} (S : Nat) (hS : 1 ≤ S) (g : Nat → List α)
    (suf : List α) :
    (List.range S).flatMap g ++ suf =
      (List.range S).flatMap fun w => g w ++ if w = S - 1 then suf else [] := by
  obtain ⟨s, rfl⟩ : ∃ s, S = s + 1 := ⟨S - 1, by omega⟩
  rw [List.range_succ, List.flatMap_append, List.flatMap_append,
    List.flatMap_singleton, List.flatMap_singleton]
  have h1 : (List.range s).flatMap
      (fun w => g w ++ if w = s + 1 - 1 then suf else []) =
      (List.range s).flatMap g := by
    refine flatMap_congr fun w hw => ?_
    rw [List.mem_range] at hw
    rw [if_neg (by omega), List.append_nil]
  rw [h1, if_pos (by omega), List.append_assoc]

theorem emitTaps_eq_flat (sg : Sig) (ml : Bool) (hD : sg.D = 2 ∨ sg.D = 3)
    (hS : 1 ≤ sg.S) :
    emitTaps sg ml = (List.range sg.K).flatMap (tapFlat sg ml) := by
  have hrow : ∀ f_t f_h, emitRow sg ml f_t f_h =
      (List.range sg.S).flatMap fun f_w =>
        emitTapBody sg ml f_t f_h f_w ((f_t * sg.S + f_h) * sg.S + f_w) ++
        if f_w = sg.S - 1 then
          (if (f_t * sg.S + f_h + 1) * sg.S ≠ sg.K - 1 then
            [Instr.addGp GpR.a_addr GpR.wReg] else []) else [] := by
    intro f_t f_h
    unfold emitRow
    exact absorb_suffix sg.S hS _ _
  have hplane : ∀ f_t, emitPlane sg ml f_t =
      (List.range sg.S).flatMap fun f_h => (List.range sg.S).flatMap fun f_w =>
        emitTapBody sg ml f_t f_h f_w ((f_t * sg.S + f_h) * sg.S + f_w) ++
        (if f_w = sg.S - 1 then
          (if (f_t * sg.S + f_h + 1) * sg.S ≠ sg.K - 1 then
            [Instr.addGp GpR.a_addr GpR.wReg] else []) else []) ++
        (if f_w = sg.S - 1 then
          (if f_h = sg.S - 1 then
            (if 3 ≤ sg.D ∧ (f_t + 1) * sg.S * sg.S ≠ sg.K - 1 then
              [Instr.addGp GpR.a_addr GpR.hReg] else []) else []) else []) := by
    intro f_t
    unfold emitPlane
    rw [absorb_suffix sg.S hS]
    refine flatMap_congr fun f_h _ => ?_
    rw [hrow f_t f_h, absorb_suffix sg.S hS]
  have hcollapse :
      emitTaps sg ml = (List.range ((if sg.D = 2 then 1 else sg.S) *
        (sg.S * sg.S))).flatMap fun i =>
        (fun f_t j => (fun f_t f_h f_w =>
          emitTapBody sg ml f_t f_h f_w ((f_t * sg.S + f_h) * sg.S + f_w) ++
          (if f_w = sg.S - 1 then
            (if (f_t * sg.S + f_h + 1) * sg.S ≠ sg.K - 1 then
              [Instr.addGp GpR.a_addr GpR.wReg] else []) else []) ++
          (if f_w = sg.S - 1 then
            (if f_h = sg.S - 1 then
              (if 3 ≤ sg.D ∧ (f_t + 1) * sg.S * sg.S ≠ sg.K - 1 then
                [Instr.addGp GpR.a_addr GpR.hReg] else []) else []) else []))
          f_t (j / sg.S) (j % sg.S)) (i / (sg.S * sg.S))
          (i % (sg.S * sg.S)) := by
    unfold emitTaps
    rw [flatMap_congr fun f_t _ => hplane f_t]
    rw [flatMap_congr fun f_t _ =>
      (range_mul_flatMap sg.S sg.S _).symm]
    rw [← range_mul_flatMap (if sg.D = 2 then 1 else sg.S) (sg.S * sg.S) _]
  have hK : (if sg.D = 2 then 1 else sg.S) * (sg.S * sg.S) = sg.K := by
    rcases hD with h | h <;> simp [Sig.K, h] <;> ring
  rw [hcollapse, hK]
  refine flatMap_congr fun i hi => ?_
  rw [List.mem_range] at hi
  have hfh : i % (sg.S * sg.S) / sg.S = i / sg.S % sg.S :=
    Nat.mod_mul_right_div_self i sg.S sg.S
  have hfw : i % (sg.S * sg.S) % sg.S = i % sg.S :=
    Nat.mod_mod_of_dvd i ⟨sg.S, rfl⟩
  have hq1 : sg.S * sg.S * (i / (sg.S * sg.S)) + i % (sg.S * sg.S) = i :=
    Nat.div_add_mod i (sg.S * sg.S)
  have hq2 : sg.S * (i / sg.S) + i % sg.S = i := Nat.div_add_mod i sg.S
  have hq3 : sg.S * (i % (sg.S * sg.S) / sg.S) + i % (sg.S * sg.S) % sg.S =
      i % (sg.S * sg.S) := Nat.div_add_mod (i % (sg.S * sg.S)) sg.S
  have hidx : (i / (sg.S * sg.S) * sg.S + i / sg.S % sg.S) * sg.S + i % sg.S
      = i := by
    calc (i / (sg.S * sg.S) * sg.S + i / sg.S % sg.S) * sg.S + i % sg.S
        = sg.S * sg.S * (i / (sg.S * sg.S)) +
          (sg.S * (i / sg.S % sg.S) + i % sg.S) := by ring
      _ = sg.S * sg.S * (i / (sg.S * sg.S)) +
          (sg.S * (i % (sg.S * sg.S) / sg.S) + i % (sg.S * sg.S) % sg.S) := by
          rw [hfh, hfw]
      _ = sg.S * sg.S * (i / (sg.S * sg.S)) + i % (sg.S * sg.S) := by
          rw [hq3]
      _ = i := hq1
  simp only [tapFlat, coordT, coordH, coordW]
  rw [hfh, hfw, hidx]
  have hrowid : i % sg.S = sg.S - 1 →
      (i / (sg.S * sg.S) * sg.S + i / sg.S % sg.S + 1) * sg.S = i + 1 := by
    intro hlast
    have hexp : (i / (sg.S * sg.S) * sg.S + i / sg.S % sg.S + 1) * sg.S =
        (i / (sg.S * sg.S) * sg.S + i / sg.S % sg.S) * sg.S + sg.S := by ring
    omega
  have hplaneid : i % sg.S = sg.S - 1 → i / sg.S % sg.S = sg.S - 1 →
      (i / (sg.S * sg.S) + 1) * sg.S * sg.S = i + 1 := by
    intro h1 h2
    have hexp : (i / (sg.S * sg.S) + 1) * sg.S * sg.S =
        (i / (sg.S * sg.S) * sg.S + (sg.S - 1)) * sg.S + sg.S := by
      have : sg.S - 1 + 1 = sg.S := by omega
      calc (i / (sg.S * sg.S) + 1) * sg.S * sg.S
          = (i / (sg.S * sg.S) * sg.S + sg.S) * sg.S := by ring
        _ = (i / (sg.S * sg.S) * sg.S + (sg.S - 1 + 1)) * sg.S := by
            rw [this]
        _ = (i / (sg.S * sg.S) * sg.S + (sg.S - 1)) * sg.S + sg.S := by ring
    rw [← h2] at hexp
    omega
  congr 1
  · congr 1
    split_ifs <;> first | rfl | omega | (exfalso; omega)
  · split_ifs <;> first | rfl | omega | (exfalso; omega)

theorem countP_zero_of {l : List Instr} {p : Instr → Bool}
    (h : ∀ x ∈ l, p x = false) : l.countP p = 0 :=
  List.countP_eq_zero.mpr fun a ha => by simp [h a ha]

theorem genMadd_no_perm (a : Nat → Nat) (b : GpR) (c : Nat → Nat) (u : Bool)
    (s : Nat → Nat) (n rem : Nat) (acc : Bool) (o8 o16 z : Nat) :
    ∀ x ∈ genMaddEpi16xNPacked a b c u s n rem acc o8 o16 z,
      isPermB x = false := by
  unfold genMaddEpi16xNPacked
  repeat' first
    | apply fm_app
    | (apply fm_ite0; intro _)
    | (apply fm_ite <;> intro _)
  all_goals intro x hx
  all_goals fin_cases hx <;> rfl

theorem countP_emitCompute_perm (sg : Sig) (ml : Bool) (i : Nat) :
    (emitCompute sg ml i).countP isPermB =
      if (i % 4 = 3 ∨ i = sg.K - 1) ∧ sg.repackCond i = true then
        (if ml = true then 4 else sg.remainder / 8) else 0 := by
  unfold emitCompute
  split
  case isTrue hcp =>
    simp only [List.countP_append]
    have h1 : ∀ c : Prop, ∀ inst : Decidable c,
        (if c then [Instr.vxorps sg.zeroReg sg.zeroReg sg.zeroReg]
          else []).countP isPermB = 0 := by
      intro c inst
      split <;> simp [List.countP, List.countP.go, isPermB]
    have h2 := countP_zero_of (genMadd_no_perm aReg GpR.b_addr cReg
      sg.compute_a_sum sReg (min (sg.K - i / 4 * 4) 4)
      (if ml = true then 32 else sg.remainder) (decide (0 < i / 4))
      sg.one8Reg sg.one16Reg sg.zeroReg)
    have h3 : (if i ≠ sg.K - 1 then [Instr.addImm GpR.b_addr 128]
        else if ml = true then
          [Instr.addImm GpR.b_addr
            (32 * ((sg.K - i / 4 * 4 + 1) / 2 * 2))] else []).countP
          isPermB = 0 := by
      split_ifs <;> simp [List.countP, List.countP.go, isPermB]
    have h4 : (if sg.repackCond i = true then repackInstrs sg ml
        else []).countP isPermB =
        if sg.repackCond i = true then
          (if ml = true then 4 else sg.remainder / 8) else 0 := by
      split
      · unfold repackInstrs
        rw [List.countP_append]
        have hp : ((List.range (if ml = true then 4 else
            sg.remainder / 8)).map fun r =>
            Instr.vperm2f128 (aReg r) (cReg (r % 2 * 2))
              (cReg (r % 2 * 2 + 1))
              (if r < 2 then 0x20 else 0x31)).countP isPermB =
            (if ml = true then 4 else sg.remainder / 8) := by
          rw [List.countP_eq_length.mpr (fm_map fun r _ => by rfl)]
          rw [List.length_map, List.length_range]
        have hm : ((List.range (if ml = true then 4 else
            sg.remainder / 8)).map fun r =>
            Instr.vmovapsRR (cReg r) (aReg r)).countP isPermB = 0 :=
          countP_zero_of (fm_map fun r _ => by rfl)
        rw [hp, hm]
        omega
      · rfl
    rw [h1, h2, h3, h4]
    simp [hcp]
  case isFalse hcp =>
    simp [hcp]

theorem countP_tapFlat_perm (sg : Sig) (ml : Bool) (i : Nat) :
    (tapFlat sg ml i).countP isPermB =
      if (i % 4 = 3 ∨ i = sg.K - 1) ∧ sg.repackCond i = true then
        (if ml = true then 4 else sg.remainder / 8) else 0 := by
  unfold tapFlat emitTapBody
  simp only [List.countP_append]
  have hload : (emitLoadA sg ml i (sg.padAt (coordT sg i) (coordH sg i)
      (coordW sg i))).countP isPermB = 0 := by
    unfold emitLoadA
    split_ifs <;> simp [List.countP, List.countP.go, isPermB]
  have htail : ∀ c : Prop, ∀ inst : Decidable c, ∀ ins : Instr,
      (if c then [ins] else []).countP isPermB =
        if c then (if isPermB ins then 1 else 0) else 0 := by
    intro c inst ins
    split <;> simp [List.countP, List.countP.go]
  rw [hload, countP_emitCompute_perm sg ml i]
  have h1 : (if i ≠ sg.K - 1 then
      [Instr.addGp GpR.a_addr GpR.c_inReg] else []).countP isPermB = 0 := by
    split <;> rfl
  have h2 : (if coordW sg i = sg.S - 1 ∧ i + 1 ≠ sg.K - 1 then
      [Instr.addGp GpR.a_addr GpR.wReg] else []).countP isPermB = 0 := by
    split <;> rfl
  have h3 : (if coordW sg i = sg.S - 1 ∧ coordH sg i = sg.S - 1 ∧
      3 ≤ sg.D ∧ i + 1 ≠ sg.K - 1 then
      [Instr.addGp GpR.a_addr GpR.hReg] else []).countP isPermB = 0 := by
    split <;> rfl
  rw [h1, h2, h3]
  omega

theorem sum_map_range_single (f : Nat → Nat) (n i0 : Nat) (hi0 : i0 < n)
    (h0 : ∀ i, i < n → i ≠ i0 → f i = 0) :
    ((List.range n).map f).sum = f i0 := by
  induction n with
  | zero => omega
  | succ n ih =>
    rw [List.range_succ, List.map_append, List.sum_append]
    rcases Nat.lt_or_ge i0 n with h | h
    · rw [ih h fun i hi hne => h0 i (by omega) hne]
      have hfn : f n = 0 := h0 n (by omega) (by omega)
      simp [hfn]
    · have hi0n : i0 = n := by omega
      subst hi0n
      have hz : ((List.range i0).map f).sum = 0 :=
        List.sum_eq_zero fun x hx => by
          rcases List.mem_map.mp hx with ⟨j, hj, rfl⟩
          rw [List.mem_range] at hj
          exact h0 j (by omega) (by omega)
      simp [hz]

theorem quad_unique (K : Nat) (hK : 3 ≤ K) :
    ∃ q0, (3 ≤ K - 4 * q0 ∧ K - 4 * q0 ≤ 6) ∧
      ∀ q, 3 ≤ K - 4 * q → K - 4 * q ≤ 6 → q = q0 := by
  refine ⟨(K - 3) / 4, ⟨by omega, by omega⟩, fun q h1 h2 => by omega⟩

theorem countP_taps_perm (sg : Sig) (ml : Bool) (hwf : sg.WF)
    (hK : 3 ≤ sg.K) :
    (emitTaps sg ml).countP isPermB =
      (if ml = true then 4 else sg.remainder / 8) := by
  rw [emitTaps_eq_flat sg ml hwf.1 hwf.2.1, List.countP_flatMap]
  rw [List.map_congr_left fun i _ => by
    show (List.countP isPermB ∘ tapFlat sg ml) i = _
    exact countP_tapFlat_perm sg ml i]
  obtain ⟨q0, ⟨hq1, hq2⟩, huniq⟩ := quad_unique sg.K hK
  have hi0 : min (4 * q0 + 3) (sg.K - 1) < sg.K := by omega
  rw [sum_map_range_single _ sg.K (min (4 * q0 + 3) (sg.K - 1)) hi0 ?_]
  · have hcp : (min (4 * q0 + 3) (sg.K - 1)) % 4 = 3 ∨
        min (4 * q0 + 3) (sg.K - 1) = sg.K - 1 := by omega
    have hrc : sg.repackCond (min (4 * q0 + 3) (sg.K - 1)) = true := by
      simp only [Sig.repackCond, Bool.and_eq_true, decide_eq_true_eq]
      omega
    rw [if_pos ⟨hcp, hrc⟩]
  · intro i hi hne
    simp only [ite_eq_right_iff]
    intro hcond
    exfalso
    rcases hcond with ⟨hcp, hrc⟩
    simp only [Sig.repackCond, Bool.and_eq_true, decide_eq_true_eq] at hrc
    have hq : i / 4 = q0 := huniq (i / 4) (by omega) (by omega)
    omega

theorem SumOk_no_perm (x : Instr) (h : SumOk x) : isPermB x = false := by
  cases x <;> simp [isPermB] <;> simp [SumOk] at h

theorem countP_body_perm (sg : Sig) (ml : Bool) (hwf : sg.WF)
    (hK : 3 ≤ sg.K) :
    (emitIterBody sg ml).countP isPermB =
      (if ml = true then 4 else sg.remainder / 8) := by
  unfold emitIterBody
  simp only [List.countP_append]
  have hhead : (emitLoopHead ml).countP isPermB = 0 := by
    unfold emitLoopHead
    split <;> rfl
  have hzp : (if sg.recompute_zero ∧ sg.has_pad then emitZpPair sg
      else []).countP isPermB = 0 := by
    unfold emitZpPair
    split <;> rfl
  have hcs : (emitCStores sg ml).countP isPermB = 0 :=
    countP_zero_of (fm_map fun r _ => by rfl)
  have hsum : (emitSumSec sg ml).countP isPermB = 0 :=
    countP_zero_of fun x hx => SumOk_no_perm x (sumOk_sumSec sg ml x hx)
  have htail : (emitMainTail ml).countP isPermB = 0 := by
    unfold emitMainTail
    split <;> rfl
  rw [hhead, hzp, hcs, hsum, htail, countP_taps_perm sg ml hwf hK]
  omega

/-- C9 (amended): the re-pack pair is inserted at the compute point of quad
`q` exactly when the remaining tap count `K - 4 q` is between 3 and 6 —
the claim's "3, 5, or 6" misses 4 — and for `K >= 3` the re-pack is emitted
exactly once per main channel-group iteration (4 `vperm2f128`, one per
C register, and exactly one qualifying quad). -/
theorem C9_repack_amended (sg : Sig) (hwf : sg.WF) :
    (∀ i, i < sg.K → (sg.repackCond i = true ↔
      (3 ≤ sg.K - 4 * (i / 4) ∧ sg.K - 4 * (i / 4) ≤ 6))) ∧
    (3 ≤ sg.K → (emitIterBody sg true).countP isPermB = 4 ∧
      ∃! q, q ≤ (sg.K - 1) / 4 ∧
        sg.repackCond (min (4 * q + 3) (sg.K - 1)) = true) := by
  constructor
  · intro i _
    simp only [Sig.repackCond, Bool.and_eq_true, decide_eq_true_eq]
    omega
  · intro hK
    refine ⟨countP_body_perm sg true hwf hK, ?_⟩
    obtain ⟨q0, ⟨hq1, hq2⟩, huniq⟩ := quad_unique sg.K hK
    have hrc0 : sg.repackCond (min (4 * q0 + 3) (sg.K - 1)) = true := by
      simp only [Sig.repackCond, Bool.and_eq_true, decide_eq_true_eq]
      omega
    refine ⟨q0, ⟨by omega, hrc0⟩, fun q hq => ?_⟩
    rcases hq with ⟨hqle, hrc⟩
    simp only [Sig.repackCond, Bool.and_eq_true, decide_eq_true_eq] at hrc
    have hdiv : min (4 * q + 3) (sg.K - 1) / 4 = q := by omega
    rw [hdiv] at hrc
    exact huniq q (by omega) (by omega)

/-- C9 counterexample to the claim as stated: for the 2x2 filter (K = 4)
the emitter does insert the re-pack (the main body contains the four
`vperm2f128`), yet no quad has remaining tap count 3, 5 or 6 — the
remaining count at the only quad is 4. -/
theorem C9_counterexample :
    ¬ repackSpecStated sigS2 ∧
      (emitIterBody sigS2 true).countP isPermB = 4 := by
  constructor
  · intro h
    exact absurd (h 0 (by decide)) (by decide)
  · decide

theorem C9_repack_amended_witness :
    sigS2.WF ∧ (emitIterBody sigS2 true).countP isPermB = 4 :=
  ⟨by decide, ((C9_repack_amended sigS2 (by decide)).2 (by decide)).1⟩

theorem tail_cStores (sg : Sig) (hwf : sg.WF) :
    storesVia GpR.c_addr (emitIterBody sg false) =
      (List.range (sg.remainder / 8)).map fun r => (r * 32, cReg r) := by
  unfold emitIterBody storesVia
  simp only [List.filterMap_append]
  have h1 : (emitLoopHead false).filterMap (storeF GpR.c_addr) = [] := rfl
  have h2 : (if sg.recompute_zero ∧ sg.has_pad then emitZpPair sg
      else []).filterMap (storeF GpR.c_addr) = [] := by
    split <;> rfl
  have h3 : (emitTaps sg false).filterMap (storeF GpR.c_addr) = [] :=
    List.filterMap_eq_nil_iff.mpr fun a ha =>
      TapOk_storeF sg GpR.c_addr a (tapOk_taps sg false hwf.2.2.2 a ha)
  have h4 : (emitCStores sg false).filterMap (storeF GpR.c_addr) =
      (List.range (sg.remainder / 8)).map fun r => (r * 32, cReg r) := by
    unfold emitCStores
    rw [List.filterMap_map]
    have hc : (storeF GpR.c_addr ∘ fun r =>
        Instr.vmovupsStore GpR.c_addr (r * 32) (cReg r)) =
        some ∘ fun r => (r * 32, cReg r) :=
      funext fun r => by simp [storeF, Function.comp]
    rw [hc, List.filterMap_eq_map]
    simp
  have h5 : (emitSumSec sg false).filterMap (storeF GpR.c_addr) = [] :=
    List.filterMap_eq_nil_iff.mpr fun a ha =>
      SumOk_storeF_ne GpR.c_addr (by simp) a (sumOk_sumSec sg false a ha)
  have h6 : (emitMainTail false).filterMap (storeF GpR.c_addr) = [] := rfl
  rw [h1, h2, h3, h4, h5, h6]
  simp

/-- C10: in the tail iteration the kernel stores exactly
`remainder / 8` accumulator vectors to the main output pointer (offsets
`0, 32, ...`), hence no accumulator store touches output channels at or
beyond `8 * (remainder / 8)` and for `remainder < 8` no main-output bytes
are stored at all, while the first row-sum store (when `compute_a_sum`)
is always a full 32-byte block. -/
theorem C10_tail_stores (sg : Sig) (hwf : sg.WF) :
    storesVia GpR.c_addr (emitIterBody sg false) =
      ((List.range (sg.remainder / 8)).map fun r => (r * 32, cReg r)) ∧
    (sg.remainder < 8 → storesVia GpR.c_addr (emitIterBody sg false) = []) ∧
    (∀ pr ∈ storesVia GpR.c_addr (emitIterBody sg false),
      pr.1 + 32 ≤ 32 * (sg.remainder / 8)) ∧
    (sg.compute_a_sum = true →
      (0, aReg 0) ∈ storesVia GpR.a_sum_addr (emitIterBody sg false)) := by
  have h1 := tail_cStores sg hwf
  refine ⟨h1, ?_, ?_, ?_⟩
  · intro hlt
    rw [h1, Nat.div_eq_of_lt hlt]
    rfl
  · intro pr hpr
    rw [h1] at hpr
    rcases List.mem_map.mp hpr with ⟨r, hr, rfl⟩
    rw [List.mem_range] at hr
    simp only []
    omega
  · intro hsum
    refine List.mem_filterMap.mpr
      ⟨Instr.vmovupsStore GpR.a_sum_addr 0 (aReg 0), ?_, by simp [storeF]⟩
    have hm : Instr.vmovupsStore GpR.a_sum_addr 0 (aReg 0) ∈
        emitSumSec sg false := by
      unfold emitSumSec
      rw [if_pos hsum]
      simp [List.mem_append]
    unfold emitIterBody
    exact List.mem_append.mpr (Or.inl (List.mem_append.mpr (Or.inr hm)))

theorem C10_tail_stores_witness :
    sigWit.WF ∧
      (0, aReg 0) ∈ storesVia GpR.a_sum_addr (emitIterBody sigWit false) :=
  ⟨by decide, (C10_tail_stores sigWit (by decide)).2.2.2 rfl⟩

theorem gp_execList_init (sg : Sig) (st : MState) :
    (execList st (emitInit sg)).gp GpR.ic_loop_count =
      Int.fdiv (st.gp GpR.c_inReg + 31) (2 ^ 5) := by
  unfold emitInit execList
  split_ifs <;>
    simp [execInstr, setGp, setYmm, List.foldl]

theorem loopSim_init (sg : Sig) (st : MState) (c_in : Nat)
    (hc : st.gp GpR.c_inReg = (c_in : Int)) (h1 : 1 ≤ c_in) :
    loopSim ((execList st (emitInit sg)).gp GpR.ic_loop_count) =
      (c_in + 31) / 32 - 1 := by
  rw [gp_execList_init, hc]
  have hcast : ((c_in : Int) + 31).fdiv (2 ^ 5) =
      (((c_in + 31) / 32 : Nat) : Int) := by
    have : ((c_in : Int) + 31) = ((c_in + 31 : Nat) : Int) := by push_cast; ring
    rw [this, Int.fdiv_eq_ediv _ (by positivity)]
    rfl
  rw [hcast, loopSim_nat _ (by omega)]

theorem maskLoad_emit (sg : Sig) (hwf : sg.WF) :
    loadOffsVia GpR.mask_addr (emit sg) =
      (if sg.remainder ≠ 32 then [(8 - sg.remainder / 4) % 8 * 4]
       else []) := by
  have hbody : ∀ ml, loadOffsVia GpR.mask_addr (emitIterBody sg ml) = [] := by
    intro ml
    unfold emitIterBody loadOffsVia
    simp only [List.filterMap_append]
    have h1 : (emitLoopHead ml).filterMap (loadF GpR.mask_addr) = [] := by
      unfold emitLoopHead
      split <;> rfl
    have h2 : (if sg.recompute_zero ∧ sg.has_pad then emitZpPair sg
        else []).filterMap (loadF GpR.mask_addr) = [] := by
      split <;> rfl
    have h3 : (emitTaps sg ml).filterMap (loadF GpR.mask_addr) = [] :=
      List.filterMap_eq_nil_iff.mpr fun a ha =>
        TapOk_loadF_ne sg GpR.mask_addr (by simp) a
          (tapOk_taps sg ml hwf.2.2.2 a ha)
    have h4 : (emitCStores sg ml).filterMap (loadF GpR.mask_addr) = [] :=
      List.filterMap_eq_nil_iff.mpr (fm_map fun r _ => by rfl)
    have h5 : (emitSumSec sg ml).filterMap (loadF GpR.mask_addr) = [] :=
      List.filterMap_eq_nil_iff.mpr fun a ha =>
        SumOk_loadF_ne GpR.mask_addr (by simp) a (sumOk_sumSec sg ml a ha)
    have h6 : (emitMainTail ml).filterMap (loadF GpR.mask_addr) = [] := by
      unfold emitMainTail
      split <;> rfl
    rw [h1, h2, h3, h4, h5, h6]
    rfl
  unfold emit loadOffsVia
  simp only [List.filterMap_append]
  have hinit : (emitInit sg).filterMap (loadF GpR.mask_addr) =
      (if sg.remainder ≠ 32 then [(8 - sg.remainder / 4) % 8 * 4]
       else []) := by
    unfold emitInit
    simp only [List.filterMap_append]
    split_ifs <;> rfl
  unfold loadOffsVia at hbody
  rw [hinit, hbody, hbody]
  simp

/-- C5 (amended): the generated kernel executes exactly
`ceil(c_in / 32) - 1` full channel-group iterations followed by one tail
iteration sized to the remainder; when the remainder is not a full vector
the tail's non-padded tap loads are masked loads through the mask register,
which the init section fills from the caller's mask table at byte offset
`(32 - 4 * (remainder / 4)) mod 32` — not `(32 - remainder) mod 32` as the
claim states — and when the remainder is 32 the tail uses plain unmasked
loads with no mask-table access at all. -/
theorem C5_channel_loop_amended (sg : Sig) (hwf : sg.WF) (st : MState)
    (c_in : Nat) (hc : st.gp GpR.c_inReg = (c_in : Int)) (h1 : 1 ≤ c_in) :
    kernelRun sg st =
      execList (execList (iterN sg ((c_in + 31) / 32 - 1)
          (execList st (emitInit sg)))
          [Instr.bindL 0, Instr.decGp GpR.ic_loop_count, Instr.jle 1])
        (emitIterBody sg false) ∧
    loadOffsVia GpR.mask_addr (emit sg) =
      (if sg.remainder ≠ 32 then [(32 - 4 * (sg.remainder / 4)) % 32]
       else []) ∧
    (∀ i, emitLoadA sg false i false =
      (if sg.remainder ≠ 32 then
        [Instr.vmaskmovps (aReg (i % 4)) sg.maskReg GpR.a_addr]
       else [Instr.vmovupsLoad (aReg (i % 4)) GpR.a_addr 0])) ∧
    (∀ i, emitLoadA sg true i false =
      [Instr.vmovupsLoad (aReg (i % 4)) GpR.a_addr 0]) := by
  refine ⟨?_, ?_, ?_, ?_⟩
  · unfold kernelRun
    rw [loopSim_init sg st c_in hc h1]
  · rw [maskLoad_emit sg hwf]
    have : (8 - sg.remainder / 4) % 8 * 4 =
        (32 - 4 * (sg.remainder / 4)) % 32 := by omega
    rw [this]
  · intro i
    unfold emitLoadA
    split_ifs <;> simp_all
  · intro i
    rfl

/-- C5 counterexample to the claim as stated: for remainder 5 the emitted
mask load reads the table at byte offset 28, not `(32 - 5) mod 32 = 27`. -/
theorem C5_counterexample : ¬ maskIdxSpecStated sigRem5 := by
  unfold maskIdxSpecStated
  decide

theorem C5_channel_loop_amended_witness :
    sigRem5.WF ∧
      loadOffsVia GpR.mask_addr (emit sigRem5) =
        (if sigRem5.remainder ≠ 32 then
          [(32 - 4 * (sigRem5.remainder / 4)) % 32] else []) :=
  ⟨by decide,
    (C5_channel_loop_amended sigRem5 (by decide) stS2 32 rfl
      (by omega)).2.1⟩

theorem TapOk_ymm (sg : Sig) (x : Instr) (h : TapOk sg x) :
    ∀ r ∈ ymmRegs x, r < 16 := by
  intro r hr
  cases x <;>
    simp only [ymmRegs, List.mem_cons, List.mem_singleton,
      List.not_mem_nil, or_false] at hr <;>
    simp only [TapOk] at h <;>
    first | omega | exact h.elim

theorem InitOk_ymm (sg : Sig) (x : Instr) (h : InitOk sg x) :
    ∀ r ∈ ymmRegs x, r < 16 := by
  intro r hr
  cases x <;>
    simp only [ymmRegs, List.mem_cons, List.mem_singleton,
      List.not_mem_nil, or_false] at hr <;>
    simp only [InitOk] at h <;>
    first | omega | exact h.elim

theorem SumOk_ymm (x : Instr) (h : SumOk x) : ∀ r ∈ ymmRegs x, r < 16 := by
  intro r hr
  cases x <;>
    simp only [ymmRegs, List.mem_cons, List.mem_singleton,
      List.not_mem_nil, or_false] at hr <;>
    simp only [SumOk] at h <;>
    first | omega | exact h.elim

theorem ymm_bound_body (sg : Sig) (hwf : sg.WF) (ml : Bool) :
    ∀ x ∈ emitIterBody sg ml, ∀ r ∈ ymmRegs x, r < 16 := by
  have hzp := zpReg_le sg
  unfold emitIterBody
  refine fm_app (fm_app (fm_app (fm_app (fm_app ?_ (fm_ite0 fun _ => ?_))
    (fun x hx => TapOk_ymm sg x (tapOk_taps sg ml hwf.2.2.2 x hx)))
    (fm_map fun r hr => ?_))
    (fun x hx => SumOk_ymm x (sumOk_sumSec sg ml x hx))) ?_
  · unfold emitLoopHead
    split <;> (intro x hx; fin_cases hx <;> simp [ymmRegs])
  · intro x hx
    fin_cases hx <;> (simp [ymmRegs]; omega)
  · simp only [List.mem_range] at hr
    have hb : (if ml = true then 4 else sg.remainder / 8) ≤ 4 := by
      have := hwf.2.2.2
      split <;> omega
    intro r2 hr2
    simp only [ymmRegs, List.mem_cons, List.mem_singleton,
      List.not_mem_nil, or_false] at hr2
    simp only [cReg] at hr2
    omega
  · unfold emitMainTail
    split <;> (intro x hx; fin_cases hx <;> simp [ymmRegs])

theorem ymm_bound_emit (sg : Sig) (hwf : sg.WF) :
    ∀ x ∈ emit sg, ∀ r ∈ ymmRegs x, r < 16 := by
  unfold emit
  exact fm_app (fm_app
    (fun x hx => InitOk_ymm sg x (initOk_emitInit sg x hx))
    (ymm_bound_body sg hwf true)) (ymm_bound_body sg hwf false)

theorem vxorps_mem_taps (sg : Sig) (hwf : sg.WF) (ml : Bool)
    (hrec : sg.recompute_zero = true) (hpad : sg.has_pad = true) :
    Instr.vxorps sg.zeroReg sg.zeroReg sg.zeroReg ∈ emitTaps sg ml := by
  have hK1 : 1 ≤ sg.K := Nat.one_le_pow sg.D sg.S (by have := hwf.2.1; omega)
  have hnz : sg.need_zero = true := by
    simp only [Sig.recompute_zero, Bool.and_eq_true] at hrec
    exact hrec.2
  rw [emitTaps_eq_flat sg ml hwf.1 hwf.2.1]
  refine List.mem_flatMap.mpr ⟨sg.K - 1, by rw [List.mem_range]; omega, ?_⟩
  unfold tapFlat emitTapBody
  refine List.mem_append.mpr (Or.inl (List.mem_append.mpr (Or.inl
    (List.mem_append.mpr (Or.inl (List.mem_append.mpr (Or.inr ?_)))))))
  unfold emitCompute
  rw [if_pos (Or.inr rfl)]
  refine List.mem_append.mpr (Or.inl (List.mem_append.mpr (Or.inl
    (List.mem_append.mpr (Or.inl ?_)))))
  have hcond : sg.K - 1 = sg.K - 1 ∧
      ((sg.K - 1) / 4 * 4 = sg.K - 3 ∨ (sg.K - 1) / 4 * 4 = sg.K - 1) ∧
      sg.recompute_zero = true ∧ sg.has_pad = true := by
    refine ⟨rfl, ?_, hrec, hpad⟩
    simp only [Sig.need_zero, Bool.or_eq_true, beq_iff_eq] at hnz
    omega
  rw [if_pos hcond]
  simp

theorem recompute_rematerialize (sg : Sig) (hwf : sg.WF)
    (hrec : sg.recompute_zero = true) (hpad : sg.has_pad = true) (ml : Bool) :
    Instr.movqToXmm sg.zpReg GpR.a_zero_point ∈ emitIterBody sg ml ∧
    Instr.vpbroadcastb sg.zpReg sg.zpReg ∈ emitIterBody sg ml ∧
    Instr.vxorps sg.zeroReg sg.zeroReg sg.zeroReg ∈ emitIterBody sg ml := by
  have hzp : ∀ ins ∈ emitZpPair sg, ins ∈ emitIterBody sg ml := by
    intro ins hins
    unfold emitIterBody
    refine List.mem_append.mpr (Or.inl (List.mem_append.mpr (Or.inl
      (List.mem_append.mpr (Or.inl (List.mem_append.mpr (Or.inl
        (List.mem_append.mpr (Or.inr ?_)))))))))
    rw [if_pos ⟨hrec, hpad⟩]
    exact hins
  refine ⟨hzp _ (by simp [emitZpPair]), hzp _ (by simp [emitZpPair]), ?_⟩
  unfold emitIterBody
  refine List.mem_append.mpr (Or.inl (List.mem_append.mpr (Or.inl
    (List.mem_append.mpr (Or.inl (List.mem_append.mpr
      (Or.inr (vxorps_mem_taps sg hwf ml hrec hpad))))))))

/-- C6: the planner never exceeds the 16 vector registers (every Ymm operand
of every emitted instruction is below 16); at the exact pressure threshold
(`vreg_id = 15` with a zero constant needed) the zero constant and the
zero-point broadcast share physical register 15; in that case both are
re-materialized inside each outer channel-group iteration (broadcast pair
and `vxorps` are in both iteration bodies and absent from the init
section), and the build never fails — `emit` is total and in budget for
every well-formed signature. -/
theorem C6_register_pressure (sg : Sig) (hwf : sg.WF) :
    (∀ x ∈ emit sg, ∀ r ∈ ymmRegs x, r < 16) ∧
    (sg.recompute_zero = true → sg.zeroReg = sg.zpReg ∧ sg.zpReg = 15) ∧
    (sg.recompute_zero = true → sg.has_pad = true →
      (∀ ml, Instr.movqToXmm sg.zpReg GpR.a_zero_point ∈ emitIterBody sg ml ∧
        Instr.vpbroadcastb sg.zpReg sg.zpReg ∈ emitIterBody sg ml ∧
        Instr.vxorps sg.zeroReg sg.zeroReg sg.zeroReg ∈
          emitIterBody sg ml) ∧
      Instr.movqToXmm sg.zpReg GpR.a_zero_point ∉ emitInit sg ∧
      Instr.vxorps sg.zeroReg sg.zeroReg sg.zeroReg ∉ emitInit sg) := by
  refine ⟨ymm_bound_emit sg hwf, ?_, ?_⟩
  · intro hrec
    simp only [Sig.recompute_zero, Bool.and_eq_true, beq_iff_eq] at hrec
    unfold Sig.zeroReg Sig.zpReg
    rw [hrec.1]
    simp
  · intro hrec hpad
    refine ⟨recompute_rematerialize sg hwf hrec hpad, fun hmem => ?_,
      fun hmem => ?_⟩
    · have := initOk_emitInit sg _ hmem
      simp only [InitOk] at this
      rw [hrec] at this
      simp at this
    · have := initOk_emitInit sg _ hmem
      simp only [InitOk] at this
      rcases this.2.2.2.2.2 with h | h
      · rw [hrec] at h
        simp at h
      · rw [hpad] at h
        simp at h

theorem C6_register_pressure_witness :
    sigWit.WF ∧
      (sigWit.recompute_zero = true →
        sigWit.zeroReg = sigWit.zpReg ∧ sigWit.zpReg = 15) :=
  ⟨by decide, (C6_register_pressure sigWit (by decide)).2.1⟩

theorem emit_shape (sg : Sig) (hwf : sg.WF) :
    ∀ x ∈ emit sg, InitOk sg x ∨ TapOk sg x ∨ SumOk x ∨
      ((x = Instr.movqToXmm sg.zpReg GpR.a_zero_point ∨
        x = Instr.vpbroadcastb sg.zpReg sg.zpReg) ∧
        sg.recompute_zero = true ∧ sg.has_pad = true) ∨
      isJumpB x = true ∨
      (∃ r, x = Instr.vmovupsStore GpR.c_addr (r * 32) (cReg r)) ∨
      x = Instr.bindL 0 ∨ x = Instr.bindL 1 ∨
      x = Instr.decGp GpR.ic_loop_count ∨
      x = Instr.addImm GpR.c_addr 128 ∨
      x = Instr.addImm GpR.a_addr_save 32 ∨
      x = Instr.movGp GpR.a_addr GpR.a_addr_save := by
  have hbody : ∀ ml, ∀ x ∈ emitIterBody sg ml, InitOk sg x ∨ TapOk sg x ∨
      SumOk x ∨
      ((x = Instr.movqToXmm sg.zpReg GpR.a_zero_point ∨
        x = Instr.vpbroadcastb sg.zpReg sg.zpReg) ∧
        sg.recompute_zero = true ∧ sg.has_pad = true) ∨
      isJumpB x = true ∨
      (∃ r, x = Instr.vmovupsStore GpR.c_addr (r * 32) (cReg r)) ∨
      x = Instr.bindL 0 ∨ x = Instr.bindL 1 ∨
      x = Instr.decGp GpR.ic_loop_count ∨
      x = Instr.addImm GpR.c_addr 128 ∨
      x = Instr.addImm GpR.a_addr_save 32 ∨
      x = Instr.movGp GpR.a_addr GpR.a_addr_save := by
    intro ml
    unfold emitIterBody
    refine fm_app (fm_app (fm_app (fm_app (fm_app ?_ (fm_ite0 fun hc => ?_))
      (fun x hx => Or.inr (Or.inl (tapOk_taps sg ml hwf.2.2.2 x hx))))
      (fm_map fun r _ => ?_))
      (fun x hx => Or.inr (Or.inr (Or.inl (sumOk_sumSec sg ml x hx))))) ?_
    · unfold emitLoopHead
      split <;> (intro x hx; fin_cases hx <;> simp [isJumpB])
    · intro x hx
      fin_cases hx <;>
        · right; right; right; left
          simp [emitZpPair, hc.1, hc.2]
    · right; right; right; right; right; left
      exact ⟨r, rfl⟩
    · unfold emitMainTail
      split <;> (intro x hx; fin_cases hx <;> simp [isJumpB])
  unfold emit
  exact fm_app (fm_app (fun x hx => Or.inl (initOk_emitInit sg x hx))
    (hbody true)) (hbody false)

/-- C8: the vector-register plan is a pure function of the signature in the
documented order — A tile at 2..5, C accumulators at 6..9, row sums at
10..11 when enabled, then mask / one-epi8 / one-epi16 / zero-point /
zero each advancing the free index only under its condition — and each
constant is materialized in the stream if and only if its condition holds:
the mask iff the remainder is partial, one-epi8 iff row sums are computed,
one-epi16 iff `K > 2`, the zero-point broadcast iff some skip is nonzero,
and the zero constant iff `K mod 4` is 1 or 3. -/
theorem C8_register_plan (sg : Sig) (hwf : sg.WF) :
    ((∀ i, aReg i = 2 + i) ∧ (∀ i, cReg i = 6 + i) ∧ (∀ i, sReg i = 10 + i) ∧
      sg.maskReg = 10 + (if sg.compute_a_sum then 2 else 0) ∧
      sg.one8Reg = sg.maskReg + (if sg.remainder ≠ 32 then 1 else 0) ∧
      sg.one16Reg = sg.one8Reg + (if sg.compute_a_sum then 1 else 0) ∧
      sg.zpReg = sg.one16Reg + (if 2 < sg.K then 1 else 0) ∧
      sg.zeroReg = min (sg.zpReg + 1) 15) ∧
    ((∃ off, Instr.vmovupsLoad sg.maskReg GpR.mask_addr off ∈ emit sg) ↔
      sg.remainder ≠ 32) ∧
    (Instr.ones8 sg.one8Reg ∈ emit sg ↔ sg.compute_a_sum = true) ∧
    (Instr.ones16 sg.one16Reg ∈ emit sg ↔ 2 < sg.K) ∧
    (Instr.vpbroadcastb sg.zpReg sg.zpReg ∈ emit sg ↔ sg.has_pad = true) ∧
    (Instr.vxorps sg.zeroReg sg.zeroReg sg.zeroReg ∈ emit sg ↔
      sg.need_zero = true) ∧
    (sg.need_zero = true ↔ (sg.K % 4 = 1 ∨ sg.K % 4 = 3)) := by
  have hplan : (∀ i, aReg i = 2 + i) ∧ (∀ i, cReg i = 6 + i) ∧
      (∀ i, sReg i = 10 + i) ∧
      sg.maskReg = 10 + (if sg.compute_a_sum then 2 else 0) ∧
      sg.one8Reg = sg.maskReg + (if sg.remainder ≠ 32 then 1 else 0) ∧
      sg.one16Reg = sg.one8Reg + (if sg.compute_a_sum then 1 else 0) ∧
      sg.zpReg = sg.one16Reg + (if 2 < sg.K then 1 else 0) ∧
      sg.zeroReg = min (sg.zpReg + 1) 15 := by
    have h15 : sg.vregAfterOne16 ≤ 15 := zpReg_le sg
    refine ⟨fun i => rfl, fun i => rfl, fun i => rfl, ?_, ?_, ?_, ?_, ?_⟩
    · unfold Sig.maskReg Sig.vregAfterSum
      split <;> rfl
    · unfold Sig.one8Reg Sig.vregAfterMask
      split <;> omega
    · unfold Sig.one16Reg Sig.vregAfterOne8
      split <;> omega
    · unfold Sig.zpReg Sig.vregAfterOne16
      split <;> omega
    · unfold Sig.zeroReg Sig.zpReg
      split <;> omega
  refine ⟨hplan, ?_, ?_, ?_, ?_, ?_, ?_⟩
  · constructor
    · rintro ⟨off, hmem⟩
      rcases emit_shape sg hwf _ hmem with h | h | h | h | h | h | h | h | h
        | h | h | h <;> simp_all [InitOk, TapOk, SumOk, isJumpB]
    · intro hrem
      refine ⟨(8 - sg.remainder / 4) % 8 * 4, ?_⟩
      unfold emit emitInit
      refine List.mem_append.mpr (Or.inl (List.mem_append.mpr (Or.inl ?_)))
      repeat' refine List.mem_append.mpr (Or.inl ?_)
      rw [if_pos hrem]
      simp
  · constructor
    · intro hmem
      rcases emit_shape sg hwf _ hmem with h | h | h | h | h | h | h | h | h
        | h | h | h <;> simp_all [InitOk, TapOk, SumOk, isJumpB]
    · intro hsum
      unfold emit emitInit
      refine List.mem_append.mpr (Or.inl (List.mem_append.mpr (Or.inl ?_)))
      refine List.mem_append.mpr (Or.inl ?_)
      refine List.mem_append.mpr (Or.inl ?_)
      refine List.mem_append.mpr (Or.inl ?_)
      refine List.mem_append.mpr (Or.inl ?_)
      refine List.mem_append.mpr (Or.inl ?_)
      refine List.mem_append.mpr (Or.inl ?_)
      refine List.mem_append.mpr (Or.inr ?_)
      rw [if_pos hsum]
      simp
  · constructor
    · intro hmem
      rcases emit_shape sg hwf _ hmem with h | h | h | h | h | h | h | h | h
        | h | h | h <;> simp_all [InitOk, TapOk, SumOk, isJumpB]
    · intro hK
      unfold emit emitInit
      refine List.mem_append.mpr (Or.inl (List.mem_append.mpr (Or.inl ?_)))
      refine List.mem_append.mpr (Or.inl ?_)
      refine List.mem_append.mpr (Or.inl ?_)
      refine List.mem_append.mpr (Or.inl ?_)
      refine List.mem_append.mpr (Or.inl ?_)
      refine List.mem_append.mpr (Or.inl ?_)
      refine List.mem_append.mpr (Or.inr ?_)
      rw [if_pos hK]
      simp
  · constructor
    · intro hmem
      rcases emit_shape sg hwf _ hmem with h | h | h | h | h | h | h | h | h
        | h | h | h <;>
        first
          | simp_all [InitOk, TapOk, SumOk, isJumpB]
          | exact h.2.2
    · intro hpad
      rcases Bool.eq_false_or_eq_true sg.recompute_zero with hbc | hbc
      · have := recompute_rematerialize sg hwf hbc hpad true
        unfold emit
        exact List.mem_append.mpr (Or.inl
          (List.mem_append.mpr (Or.inr this.2.1)))
      · unfold emit emitInit
        refine List.mem_append.mpr (Or.inl (List.mem_append.mpr (Or.inl ?_)))
        refine List.mem_append.mpr (Or.inl ?_)
        refine List.mem_append.mpr (Or.inl ?_)
        refine List.mem_append.mpr (Or.inl ?_)
        refine List.mem_append.mpr (Or.inl ?_)
        refine List.mem_append.mpr (Or.inr ?_)
        rw [if_pos ⟨by simp [hbc], hpad⟩]
        simp
  · constructor
    · intro hmem
      rcases emit_shape sg hwf _ hmem with h | h | h | h | h | h | h | h | h
        | h | h | h
      · simp only [InitOk] at h
        exact h.2.2.2.2.1
      · simp only [TapOk] at h
        have hrec := h.2.2.2.2.1
        simp only [Sig.recompute_zero, Bool.and_eq_true] at hrec
        exact hrec.2
      · simp [SumOk] at h
      · rcases h with ⟨h1 | h1, _⟩ <;> simp at h1
      · simp [isJumpB] at h
      · rcases h with ⟨r, hr⟩
        simp at hr
      · simp at h
      · simp at h
      · simp at h
      · simp at h
      · simp at h
      · simp at h
    · intro hnz
      by_cases hcase : sg.recompute_zero = true ∧ sg.has_pad = true
      · unfold emit
        exact List.mem_append.mpr (Or.inl (List.mem_append.mpr (Or.inr
          (recompute_rematerialize sg hwf hcase.1 hcase.2 true).2.2)))
      · have hside : ¬sg.recompute_zero = true ∨ ¬sg.has_pad = true := by
          by_contra hcon
          push_neg at hcon
          exact hcase ⟨hcon.1, hcon.2⟩
        unfold emit emitInit
        refine List.mem_append.mpr (Or.inl (List.mem_append.mpr (Or.inl ?_)))
        refine List.mem_append.mpr (Or.inl ?_)
        refine List.mem_append.mpr (Or.inl ?_)
        refine List.mem_append.mpr (Or.inl ?_)
        refine List.mem_append.mpr (Or.inr ?_)
        rw [if_pos ⟨hnz, hside⟩]
        simp
  · unfold Sig.need_zero
    constructor
    · intro h
      simp only [Bool.or_eq_true, beq_iff_eq] at h
      omega
    · intro h
      simp only [Bool.or_eq_true, beq_iff_eq]
      omega

theorem C8_register_plan_witness :
    sigWit.WF ∧
      (sigWit.need_zero = true ↔
        (sigWit.K % 4 = 1 ∨ sigWit.K % 4 = 3)) :=
  ⟨by decide, (C8_register_plan sigWit (by decide)).2.2.2.2.2.2⟩

theorem C2_static_padding_witness :
    sigWit.WF ∧
    (emit sigWit).filter isJumpB = [Instr.jle 1, Instr.jmp 0] :=
  ⟨by decide, (C2_static_padding sigWit (by decide)).2.2⟩

/-- C1 (evaluation at the failing input): for the 2x2 depthwise kernel with
all activations 255 and all pre-interleaved weight bytes 127
(`h = w = 2`, `c_in = 32`, no padding), the generated kernel stores
65534 per channel — the 16-bit `vpmaddubsw` intermediate
`255*127 + 255*127 = 64770` saturates to 32767 and the two saturated pairs
sum to 65534 — while the exact reference convolution gives
`4 * 255 * 127 = 129540`.  The sum is not accumulated exactly: saturation
does affect the result, contradicting the claim and the comment at
lines 40-47 (`c = a0*b0 + a1*b1 + a2*b2 + a3*b3`). -/
theorem C1_saturation_failure :
    dwordMem (kernelRun sigS2 stS2).mem 2000 = 65534 ∧
    refConv sigS2 memS2 0 memS2 1000 0 2 2 32 0 = 129540 ∧
    (65534 : Int) ≠ 129540 := by
  refine ⟨by decide, by decide, by decide⟩

theorem execList_nil (st : MState) : execList st [] = st := rfl

theorem execList_cons (st : MState) (i : Instr) (l : List Instr) :
    execList st (i :: l) = execList (execInstr st i) l := rfl

theorem execList_append (st : MState) (l1 l2 : List Instr) :
    execList st (l1 ++ l2) = execList (execList st l1) l2 := by
  unfold execList
  exact List.foldl_append _ _ _ _

theorem execList_flatMap {α : Type} (f : α → List Instr) (l : List α)
    (st : MState) :
    execList st (l.flatMap f) =
      l.foldl (fun s x => execList s (f x)) st := by
  induction l generalizing st with
  | nil => rfl
  | cons a t ih =>
      rw [List.flatMap_cons, execList_append, List.foldl_cons, ih]

theorem setYmm_ymm_ne (st : MState) (d r : Nat) (v : Vec) (h : r ≠ d) :
    (setYmm st d v).ymm r = st.ymm r := by
  simp [setYmm, h]

theorem setYmm_ymm_eq (st : MState) (d : Nat) (v : Vec) :
    (setYmm st d v).ymm d = v := by
  simp [setYmm]

theorem setGp_gp_ne (st : MState) (d r : GpR) (v : Int) (h : r ≠ d) :
    (setGp st d v).gp r = st.gp r := by
  simp [setGp, h]

theorem execInstr_ymm_frame (st : MState) (ins : Instr) (r : Nat)
    (h : ∀ d, ymmDst ins = some d → d ≠ r) :
    (execInstr st ins).ymm r = st.ymm r := by
  cases ins <;>
    first
      | rfl
      | exact setYmm_ymm_ne _ _ _ _ (fun he => (h _ rfl) he.symm)

theorem execList_ymm_frame (st : MState) (l : List Instr) (r : Nat)
    (h : ∀ ins ∈ l, ∀ d, ymmDst ins = some d → d ≠ r) :
    (execList st l).ymm r = st.ymm r := by
  induction l generalizing st with
  | nil => rfl
  | cons i t ih =>
      rw [execList_cons, ih _ fun ins hins => h ins (List.mem_cons_of_mem _ hins),
        execInstr_ymm_frame _ _ _ (h i (List.mem_cons_self _ _))]

theorem execInstr_gp_frame (st : MState) (ins : Instr) (r : GpR)
    (h : ∀ d, gpDst ins = some d → d ≠ r) :
    (execInstr st ins).gp r = st.gp r := by
  cases ins <;>
    first
      | rfl
      | exact setGp_gp_ne _ _ _ _ (fun he => (h _ rfl) he.symm)

theorem execList_gp_frame (st : MState) (l : List Instr) (r : GpR)
    (h : ∀ ins ∈ l, ∀ d, gpDst ins = some d → d ≠ r) :
    (execList st l).gp r = st.gp r := by
  induction l generalizing st with
  | nil => rfl
  | cons i t ih =>
      rw [execList_cons, ih _ fun ins hins => h ins (List.mem_cons_of_mem _ hins),
        execInstr_gp_frame _ _ _ (h i (List.mem_cons_self _ _))]

theorem execInstr_mem_frame (st : MState) (ins : Instr)
    (h : isStoreB ins = false) : (execInstr st ins).mem = st.mem := by
  cases ins <;> first | rfl | simp [isStoreB] at h

theorem execList_mem_frame (st : MState) (l : List Instr)
    (h : ∀ ins ∈ l, isStoreB ins = false) :
    (execList st l).mem = st.mem := by
  induction l generalizing st with
  | nil => rfl
  | cons i t ih =>
      rw [execList_cons, ih _ fun ins hins => h ins (List.mem_cons_of_mem _ hins),
        execInstr_mem_frame _ _ (h i (List.mem_cons_self _ _))]

theorem wordOf_mkWords (f : Nat → Nat) (j : Nat) :
    wordOf (mkWords f) j = f j % 65536 := by
  unfold wordOf mkWords
  have h1 : 2 * j / 2 = j := by omega
  have h2 : 2 * j % 2 = 0 := by omega
  have h3 : (2 * j + 1) / 2 = j := by omega
  have h4 : (2 * j + 1) % 2 = 1 := by omega
  rw [h1, h2, h3, h4, pow_zero, pow_one, Nat.div_one]
  omega

theorem dwordOf_mkDwords (f : Nat → Nat) (j : Nat) :
    dwordOf (mkDwords f) j = f j % 4294967296 := by
  unfold dwordOf mkDwords
  have h1 : 4 * j / 4 = j := by omega
  have h2 : 4 * j % 4 = 0 := by omega
  have h3 : (4 * j + 1) / 4 = j := by omega
  have h4 : (4 * j + 1) % 4 = 1 := by omega
  have h5 : (4 * j + 2) / 4 = j := by omega
  have h6 : (4 * j + 2) % 4 = 2 := by omega
  have h7 : (4 * j + 3) / 4 = j := by omega
  have h8 : (4 * j + 3) % 4 = 3 := by omega
  rw [h1, h2, h3, h4, h5, h6, h7, h8, pow_zero, Nat.div_one]
  norm_num
  omega

theorem unpckl_even (x y : Vec) (j : Nat) :
    vpunpcklbwV x y (2 * j) = x (16 * (j / 8) + j % 8) := by
  unfold vpunpcklbwV
  rw [if_pos (by omega)]
  congr 1
  omega

theorem unpckl_odd (x y : Vec) (j : Nat) :
    vpunpcklbwV x y (2 * j + 1) = y (16 * (j / 8) + j % 8) := by
  unfold vpunpcklbwV
  rw [if_neg (by omega)]
  congr 1
  omega

theorem unpckh_even (x y : Vec) (j : Nat) :
    vpunpckhbwV x y (2 * j) = x (16 * (j / 8) + 8 + j % 8) := by
  unfold vpunpckhbwV
  rw [if_pos (by omega)]
  congr 1
  omega

theorem unpckh_odd (x y : Vec) (j : Nat) :
    vpunpckhbwV x y (2 * j + 1) = y (16 * (j / 8) + 8 + j % 8) := by
  unfold vpunpckhbwV
  rw [if_neg (by omega)]
  congr 1
  omega

theorem wordOf_madd_ones (v : Vec) (j : Nat) :
    wordOf (vpmaddubswV v onesBV) j = v (2 * j) % 256 + v (2 * j + 1) % 256 := by
  unfold vpmaddubswV
  rw [wordOf_mkWords]
  unfold onesBV toI8 satI16 ofI16
  norm_num
  omega

theorem wordOf_paddsw_min (x y : Vec) (j : Nat) (hx : wordOf x j ≤ 32767)
    (hy : wordOf y j ≤ 32767) :
    wordOf (vpaddswV x y) j = min (wordOf x j + wordOf y j) 32767 := by
  unfold vpaddswV
  rw [wordOf_mkWords]
  unfold toI16 satI16 ofI16
  split_ifs <;> omega

theorem dwordOf_sxwd (x : Vec) (j : Nat) (hx : wordOf x j ≤ 32767) :
    dwordOf (vpmovsxwdV x) j = wordOf x j := by
  unfold vpmovsxwdV
  rw [dwordOf_mkDwords]
  unfold toI16 ofI32
  split_ifs <;> omega

theorem dwordOf_mulld (x y : Vec) (j : Nat) :
    dwordOf (vpmulldV x y) j = dwordOf x j * dwordOf y j % 4294967296 := by
  unfold vpmulldV
  rw [dwordOf_mkDwords]
  exact Nat.mod_mod_of_dvd _ dvd_rfl

theorem dwordOf_broadcastD (d : Nat) (k : Nat) :
    dwordOf (broadcastDV d) k = d % 4294967296 := by
  unfold broadcastDV
  rw [dwordOf_mkDwords]
  exact Nat.mod_mod_of_dvd _ dvd_rfl

theorem wordOf_extractHi (x : Vec) (j : Nat) (hj : j < 8) :
    wordOf (vextractHiV x) j = wordOf x (j + 8) := by
  unfold wordOf vextractHiV
  rw [if_pos (by omega), if_pos (by omega)]
  have ha : 16 + 2 * j = 2 * (j + 8) := by omega
  have hb : 16 + (2 * j + 1) = 2 * (j + 8) + 1 := by omega
  rw [ha, hb]

theorem vxorV_self (x : Vec) : vxorV x x = fun _ => 0 := by
  funext b
  unfold vxorV
  exact Nat.xor_self _

theorem broadcastB_movq (g : Int) :
    broadcastBV (movqGpV g) = fun _ => aZpByte g := by
  funext b
  simp [broadcastBV, movqGpV, aZpByte, Nat.mod_mod_of_dvd]

theorem Aeff_lt (sg : Sig) (mem : Int → Nat) (a0 cin w_r h_r azp : Int)
    (i ch : Nat) : Aeff sg mem a0 cin w_r h_r azp i ch < 256 := by
  unfold Aeff aZpByte
  split <;> omega

theorem sumA_succ (sg : Sig) (mem : Int → Nat) (a0 cin w_r h_r azp : Int)
    (m ch : Nat) :
    sumA sg mem a0 cin w_r h_r azp (m + 1) ch =
      sumA sg mem a0 cin w_r h_r azp m ch +
        Aeff sg mem a0 cin w_r h_r azp m ch := by
  unfold sumA
  rw [List.range_succ, List.map_append, List.sum_append]
  simp

theorem sumA_add (sg : Sig) (mem : Int → Nat) (a0 cin w_r h_r azp : Int)
    (m n ch : Nat) :
    sumA sg mem a0 cin w_r h_r azp (m + n) ch =
      sumA sg mem a0 cin w_r h_r azp m ch +
        ((List.range n).map fun t =>
          Aeff sg mem a0 cin w_r h_r azp (m + t) ch).sum := by
  induction n with
  | zero => simp [sumA]
  | succ n ih =>
      rw [show m + (n + 1) = (m + n) + 1 from rfl, sumA_succ, ih,
        List.range_succ, List.map_append, List.sum_append]
      simp [add_assoc]

theorem storeMem_at (mem : Int → Nat) (a : Int) (v : Vec) (t : Nat)
    (ht : t < 32) : storeMem mem a v (a + (t : Nat)) = v t % 256 := by
  unfold storeMem
  rw [if_pos (by omega)]
  have e : (a + (t : Nat) - a).toNat = t := by omega
  rw [e]

theorem dwordMem_store_in (mem : Int → Nat) (a : Int) (v : Vec) (k : Nat)
    (hk : k < 8) (hb : ∀ b, v b < 256) :
    dwordMem (storeMem mem a v) (a + (4 * k : Nat)) = dwordOf v k := by
  unfold dwordMem dwordOf
  have e1 : a + (4 * k : Nat) + 1 = a + ((4 * k + 1 : Nat) : Int) := by
    push_cast; ring
  have e2 : a + (4 * k : Nat) + 2 = a + ((4 * k + 2 : Nat) : Int) := by
    push_cast; ring
  have e3 : a + (4 * k : Nat) + 3 = a + ((4 * k + 3 : Nat) : Int) := by
    push_cast; ring
  rw [e1, e2, e3, storeMem_at mem a v (4 * k) (by omega),
    storeMem_at mem a v (4 * k + 1) (by omega),
    storeMem_at mem a v (4 * k + 2) (by omega),
    storeMem_at mem a v (4 * k + 3) (by omega)]
  have b0 := hb (4 * k)
  have b1 := hb (4 * k + 1)
  have b2 := hb (4 * k + 2)
  have b3 := hb (4 * k + 3)
  omega

theorem dwordMem_store_out (mem : Int → Nat) (a : Int) (v : Vec)
    (addr : Int) (h : addr + 4 ≤ a ∨ a + 32 ≤ addr) :
    dwordMem (storeMem mem a v) addr = dwordMem mem addr := by
  unfold dwordMem storeMem
  rw [if_neg (by omega), if_neg (by omega), if_neg (by omega),
    if_neg (by omega)]

theorem dwordOf_loadMem (mem : Int → Nat) (a : Int) (k : Nat) :
    dwordOf (loadMem mem a) k = dwordMem mem (a + (4 * k : Nat)) := by
  unfold dwordOf loadMem dwordMem
  have e1 : a + (4 * k : Nat) + 1 = a + ((4 * k + 1 : Nat) : Int) := by
    push_cast; ring
  have e2 : a + (4 * k : Nat) + 2 = a + ((4 * k + 2 : Nat) : Int) := by
    push_cast; ring
  have e3 : a + (4 * k : Nat) + 3 = a + ((4 * k + 3 : Nat) : Int) := by
    push_cast; ring
  rw [e1, e2, e3]

theorem reg_lower_bounds (sg : Sig) (hsum : sg.compute_a_sum = true) :
    12 ≤ sg.one8Reg ∧ sg.one8Reg ≤ 13 ∧ 13 ≤ sg.one16Reg ∧
      sg.one16Reg ≤ 14 ∧ 13 ≤ sg.zpReg ∧ sg.zpReg ≤ 15 ∧
      14 ≤ sg.zeroReg ∧ sg.zeroReg ≤ 15 ∧ sg.one8Reg < sg.one16Reg ∧
      sg.one16Reg < sg.zeroReg ∧ sg.one8Reg ≠ sg.zeroReg ∧
      (sg.zpReg ≠ sg.zeroReg ∨ sg.zpReg = 15) := by
  have hm : sg.maskReg = 12 := by
    unfold Sig.maskReg Sig.vregAfterSum
    rw [hsum]
    simp
  have h8 : sg.one8Reg = 12 ∨ sg.one8Reg = 13 := by
    unfold Sig.one8Reg Sig.vregAfterMask
    rw [hm]
    split <;> omega
  have h16 : sg.one16Reg = sg.one8Reg + 1 := by
    unfold Sig.one16Reg Sig.vregAfterOne8
    rw [hsum]
    simp
  have hzp : sg.zpReg = sg.one16Reg ∨ sg.zpReg = sg.one16Reg + 1 := by
    unfold Sig.zpReg Sig.vregAfterOne16 Sig.one16Reg
    split <;> omega
  have h15 := zpReg_le sg
  have hzr : (sg.zpReg < 15 ∧ sg.zeroReg = sg.zpReg + 1) ∨
      (sg.zpReg = 15 ∧ sg.zeroReg = 15) := by
    unfold Sig.zeroReg Sig.zpReg at *
    split <;> omega
  omega

end FbgemmDW
